import Mathlib

/-!
Verification of the wordfence-go scanning core against its specification.

Each Go function relevant to the checked claims is translated into an
executable Lean definition over `List Char` byte strings, `Int`/`Nat`
arithmetic and explicit state passing.  Behaviour of external libraries
(the RE2 and regexp2 regex engines, SHA-256) is abstracted into oracle
parameters; everything the repository itself computes is embedded
directly.
-/

set_option maxRecDepth 4000

/-! ## Shared string helpers

Go byte strings are modelled as `List Char`.  `strContains` models
`strings.Contains` (contiguous substring search) and `leadsWith` models
`strings.HasPrefix`. -/

/-- Model of `strings.HasPrefix`: `needle` is an initial segment of `hay`. -/
def leadsWith : List Char → List Char → Bool
  | [], _ => true
  | _ :: _, [] => false
  | a :: as, b :: bs => a = b && leadsWith as bs

/-- Model of `strings.Contains`: `needle` occurs contiguously inside `hay`. -/
def strContains (needle : List Char) : List Char → Bool
  | [] => leadsWith needle []
  | c :: rest => leadsWith needle (c :: rest) || strContains needle rest

/-! ## Version comparison (internal/intel, `CompareVersions` / `normalizeVersion`)

From `loader_embedded.go` lines 946-1006. -/

/-- The segment delimiters of `normalizeVersion`: the regexp `[.\-_]`. -/
def isVersionDelim (c : Char) : Bool := c = '.' || c = '-' || c = '_'

/-- Model of `strings.TrimPrefix(version, "v")`: drop one leading `v` if present. -/
def trimV : List Char → List Char
  | 'v' :: rest => rest
  | l => l

/-- Model of `regexp.Split` on the delimiter class: split into segments, keeping
empty segments, as the Go call `Split(s, -1)` does. -/
def splitSegs : List Char → List Char → List (List Char)
  | [], acc => [acc.reverse]
  | c :: cs, acc =>
    if isVersionDelim c then acc.reverse :: splitSegs cs [] else splitSegs cs (c :: acc)

/-- Numeric value of a decimal digit string. -/
def natOfDigits (ds : List Char) : Nat :=
  ds.foldl (fun n c => n * 10 + (c.toNat - 48)) 0

/-- The maximum Go `int` value (64-bit). -/
def maxInt64 : Nat := 9223372036854775807

/-- Model of `strconv.Atoi` on a non-empty decimal digit string: the value, or
`none` on overflow (Go returns `ErrRange` then, which the callers treat
as a failed parse or, in `normalizeVersion`, as the clamped value). -/
def goAtoi (ds : List Char) : Option Nat :=
  if natOfDigits ds ≤ maxInt64 then some (natOfDigits ds) else none

/-- The value returned by `strconv.Atoi` with the error ignored, as
`normalizeVersion` does (`num, _ := strconv.Atoi(numStr)`); on positive
overflow Go returns the clamped maximum. -/
def goAtoiClamp (ds : List Char) : Nat :=
  if natOfDigits ds ≤ maxInt64 then natOfDigits ds else maxInt64

/-- The per-segment step of `normalizeVersion`: take the leading run of
decimal digits; a segment with no leading digit contributes nothing. -/
def segToNum (part : List Char) : Option Nat :=
  let numStr := part.takeWhile Char.isDigit
  if numStr.isEmpty then none else some (goAtoiClamp numStr)

/-- The loop of `normalizeVersion` over the split segments. -/
def segsToNums (parts : List (List Char)) : List Nat :=
  parts.filterMap segToNum

/-- Model of `normalizeVersion`: trim a leading `v`, split on `.`/`-`/`_`, and
keep the numeric value of the leading digit run of each segment. -/
def normalizeVersion (version : List Char) : List Nat :=
  segsToNums (splitSegs (trimV version) [])

/-- Tail of the `CompareVersions` loop once the left side is exhausted:
the left value is the padded 0 at every remaining position. -/
def cmpZero : List Nat → Int
  | [] => 0
  | p2 :: t2 => if 0 < p2 then -1 else cmpZero t2

/-- The comparison loop of `CompareVersions`: segment-wise numeric
comparison, missing trailing segments treated as 0. -/
def cmpSegs : List Nat → List Nat → Int
  | [], l2 => cmpZero l2
  | p1 :: t1, [] => if 0 < p1 then 1 else cmpSegs t1 []
  | p1 :: t1, p2 :: t2 =>
    if p1 < p2 then -1 else if p2 < p1 then 1 else cmpSegs t1 t2

/-- Model of `CompareVersions`: -1, 0 or 1 comparing two version strings by their
normalized numeric segments. -/
def CompareVersions (v1 v2 : String) : Int :=
  cmpSegs (normalizeVersion v1.toList) (normalizeVersion v2.toList)

/-! ## Version ranges (`VersionRange.Includes`) -/

/-- The wildcard version `*`. -/
def VersionAny : String := "*"

/-- Model of `intel.VersionRange`. -/
structure VersionRange where
  FromVersion : String
  FromInclusive : Bool
  ToVersion : String
  ToInclusive : Bool
deriving DecidableEq, Repr

/-- Model of `VersionRange.Includes`: wildcard-wildcard accepts; otherwise each
non-wildcard endpoint may reject. -/
def VersionRange.Includes (vr : VersionRange) (version : String) : Bool :=
  if vr.FromVersion = VersionAny ∧ vr.ToVersion = VersionAny then
    true
  else
    let fromReject : Bool :=
      if vr.FromVersion ≠ VersionAny then
        let cmp := CompareVersions vr.FromVersion version
        decide (0 < cmp) || (decide (cmp = 0) && !vr.FromInclusive)
      else false
    let toReject : Bool :=
      if vr.ToVersion ≠ VersionAny then
        let cmp := CompareVersions vr.ToVersion version
        decide (cmp < 0) || (decide (cmp = 0) && !vr.ToInclusive)
      else false
    if fromReject then false else if toReject then false else true

/-! ## Circuit breaker (internal/scanner/circuitbreaker.go)

State passing makes the mutex-serialized transitions explicit; time is
an `Int` of Unix nanoseconds supplied at each call. -/

/-- Model of `scanner.CircuitState`. -/
inductive CircuitState where
  | CircuitClosed
  | CircuitOpen
  | CircuitHalfOpen
deriving DecidableEq, Repr

/-- Model of `scanner.CircuitBreaker`: mutable fields plus configuration. -/
structure CircuitBreaker where
  state : CircuitState
  failures : Int
  successes : Int
  lastFailureTime : Int
  threshold : Int
  timeout : Int
  halfOpenMax : Int
deriving DecidableEq, Repr

/-- Model of `NewCircuitBreaker`: non-positive settings fall back to the defaults
(threshold 5, timeout 30 s, halfOpenMax 3); atomics start at zero. -/
def NewCircuitBreaker (threshold timeout halfOpenMax : Int) : CircuitBreaker :=
  let t := if threshold ≤ 0 then 5 else threshold
  let d := if timeout ≤ 0 then 30000000000 else timeout
  let h := if halfOpenMax ≤ 0 then 3 else halfOpenMax
  { state := .CircuitClosed, failures := 0, successes := 0, lastFailureTime := 0,
    threshold := t, timeout := d, halfOpenMax := h }

/-- Model of `CircuitBreaker.allowRequest` at time `now`: whether the call may
proceed, together with the possibly updated breaker (open → half-open
once the timeout has elapsed since the last failure). -/
def CircuitBreaker.allowRequest (cb : CircuitBreaker) (now : Int) : Bool × CircuitBreaker :=
  match cb.state with
  | .CircuitClosed => (true, cb)
  | .CircuitOpen =>
    if cb.timeout ≤ now - cb.lastFailureTime then
      (true, { cb with state := .CircuitHalfOpen, successes := 0 })
    else
      (false, cb)
  | .CircuitHalfOpen => (true, cb)

/-- Model of `CircuitBreaker.recordResult` at time `now` for a call that failed
(`failed = true`) or succeeded. -/
def CircuitBreaker.recordResult (cb : CircuitBreaker) (failed : Bool) (now : Int) :
    CircuitBreaker :=
  if failed then
    let cb := { cb with lastFailureTime := now }
    match cb.state with
    | .CircuitClosed =>
      let f := cb.failures + 1
      if cb.threshold ≤ f then { cb with state := .CircuitOpen, failures := 0 }
      else { cb with failures := f }
    | .CircuitHalfOpen => { cb with state := .CircuitOpen, successes := 0 }
    | .CircuitOpen => cb
  else
    match cb.state with
    | .CircuitClosed => { cb with failures := 0 }
    | .CircuitHalfOpen =>
      let s := cb.successes + 1
      if cb.halfOpenMax ≤ s then
        { cb with state := .CircuitClosed, failures := 0, successes := 0 }
      else { cb with successes := s }
    | .CircuitOpen => cb

/-- The result of `CircuitBreaker.Execute`: either the distinct
`ErrCircuitOpen` short-circuit, or the wrapped callable ran (and either
failed or succeeded). -/
inductive ExecOutcome where
  | circuitOpenErr
  | ran (failed : Bool)
deriving DecidableEq, Repr

/-- Model of `CircuitBreaker.Execute` at time `now`; `fnFails` is whether the
protected callable would return an error when invoked. -/
def CircuitBreaker.Execute (cb : CircuitBreaker) (now : Int) (fnFails : Bool) :
    ExecOutcome × CircuitBreaker :=
  let res := cb.allowRequest now
  if res.1 then (.ran fnFails, res.2.recordResult fnFails now)
  else (.circuitOpenErr, res.2)

/-- A sequence of failing `Execute` calls at the given times. -/
def failRun (cb : CircuitBreaker) (ts : List Int) : CircuitBreaker :=
  ts.foldl (fun cb t => (cb.Execute t true).2) cb

/-- A sequence of successful `Execute` calls at the given times. -/
def succRun (cb : CircuitBreaker) (ts : List Int) : CircuitBreaker :=
  ts.foldl (fun cb t => (cb.Execute t false).2) cb

/-! ## Byte-rate limiter (internal/scanner/ratelimit.go)

`TokenBucketLimiter.Wait` blocks on channels; its observable outcome for
the caller is modelled by an oracle giving the result of each sequential
`Wait` call. -/

/-- The outcome of one `TokenBucketLimiter.Wait` call: a token was
granted, the context was cancelled, or the limiter was closed. -/
inductive WaitOutcome where
  | ok
  | cancelled
  | closedErr
deriving DecidableEq, Repr

/-- The token count computed by `WaitForBytes`:
`tokensNeeded := int(bytes / chunkSize)`, bumped to 1 when zero.
The Go `/` on non-negative operands is truncated (floor) division. -/
def tokensNeeded (bytes chunkSize : Int) : Int :=
  let t := Int.tdiv bytes chunkSize
  if t = 0 then 1 else t

/-- The acquisition loop of `WaitForBytes`: perform `n` sequential
`Wait` calls, stopping at the first failure.  Returns the number of
tokens acquired and the error, if any. -/
def waitLoop (w : Nat → WaitOutcome) : Nat → Nat → Nat × Option WaitOutcome
  | 0, acquired => (acquired, none)
  | Nat.succ k, acquired =>
    match w acquired with
    | .ok => waitLoop w k (acquired + 1)
    | e => (acquired, some e)

/-- Model of `ByteRateLimiter.WaitForBytes`: acquire `tokensNeeded bytes chunk`
tokens one `Wait` at a time, propagating the first error. -/
def WaitForBytes (w : Nat → WaitOutcome) (bytes chunkSize : Int) : Nat × Option WaitOutcome :=
  waitLoop w (tokensNeeded bytes chunkSize).toNat 0

/-! ## Resource monitor (loadavg_windows.go, `ResourceMonitor.adjustResources`)

Go `float64` metric values are modelled as rationals; the policy only
compares and divides them.  `numCPU` is `runtime.NumCPU()`. -/

/-- The configuration fields of `ResourceMonitor` read by
`adjustResources`. -/
structure MonitorConfig where
  maxMemoryMB : Int
  maxLoadAvg : Rat
  targetGCPercent : Rat
deriving DecidableEq, Repr

/-- The fields of a `ResourceMetrics` snapshot read by
`adjustResources`. -/
structure ResourceMetrics where
  HeapAllocMB : Rat
  GCCPUFraction : Rat
  LoadAvg1 : Rat
  SchedLatencyNS : Rat
  NumGoroutines : Int
deriving DecidableEq, Repr

/-- The observable effect of one `adjustResources` evaluation. -/
structure AdjustOutcome where
  newLevel : Int
  workers : Int
  delayNS : Int
  callbackInvoked : Bool
deriving DecidableEq, Repr

/-- Model of `ResourceMonitor.adjustResources`, evaluated on a metrics snapshot.
`oldLevel` is the stored throttle level and `onAdjustSet` whether a
callback was registered; the callback fires exactly when the level
changed and a callback is set. -/
def adjustResources (cfg : MonitorConfig) (rm : ResourceMetrics) (numCPU : Int)
    (oldLevel : Int) (onAdjustSet : Bool) : AdjustOutcome :=
  let newLevel : Int := 0
  let workers : Int := numCPU
  let delayNS : Int := 0
  -- Check memory pressure
  let (newLevel, workers, delayNS) :=
    if 0 < cfg.maxMemoryMB then
      let memUsagePercent := rm.HeapAllocMB / (cfg.maxMemoryMB : Rat)
      if (9 : Rat)/10 < memUsagePercent then
        (max newLevel 3, 1, 200000000)
      else if (3 : Rat)/4 < memUsagePercent then
        (max newLevel 2, max 1 (Int.tdiv numCPU 4), 100000000)
      else if (1 : Rat)/2 < memUsagePercent then
        (max newLevel 1, max 1 (Int.tdiv numCPU 2), 50000000)
      else (newLevel, workers, delayNS)
    else (newLevel, workers, delayNS)
  -- Check GC pressure
  let (newLevel, workers, delayNS) :=
    if cfg.targetGCPercent * 2 < rm.GCCPUFraction then
      (max newLevel 2, min workers (max 1 (Int.tdiv numCPU 4)), max delayNS 100000000)
    else if cfg.targetGCPercent < rm.GCCPUFraction then
      (max newLevel 1, min workers (max 1 (Int.tdiv numCPU 2)), max delayNS 50000000)
    else (newLevel, workers, delayNS)
  -- Check system load (Unix)
  let (newLevel, workers, delayNS) :=
    if 0 < cfg.maxLoadAvg ∧ 0 < rm.LoadAvg1 then
      let loadPercent := rm.LoadAvg1 / cfg.maxLoadAvg
      if (3 : Rat)/2 < loadPercent then
        (max newLevel 3, 1, max delayNS 200000000)
      else if (6 : Rat)/5 < loadPercent then
        (max newLevel 2, min workers (max 1 (Int.tdiv numCPU 4)), max delayNS 100000000)
      else if (1 : Rat) < loadPercent then
        (max newLevel 1, min workers (max 1 (Int.tdiv numCPU 2)), max delayNS 50000000)
      else (newLevel, workers, delayNS)
    else (newLevel, workers, delayNS)
  -- Check scheduler latency
  let (newLevel, workers, delayNS) :=
    if (10000000 : Rat) < rm.SchedLatencyNS then
      (max newLevel 2, min workers (max 1 (Int.tdiv numCPU 2)), max delayNS 50000000)
    else (newLevel, workers, delayNS)
  -- Check goroutine count
  let (newLevel, workers) :=
    if numCPU * 100 < rm.NumGoroutines then
      (max newLevel 1, min workers (max 1 (Int.tdiv numCPU 2)))
    else (newLevel, workers)
  { newLevel := newLevel, workers := workers, delayNS := delayNS,
    callbackInvoked := onAdjustSet && decide (newLevel ≠ oldLevel) }

/-! ## Pipeline read-stage deduplication (part of `pipeline.go`)

The read stage computes the SHA-256 content hash of each item, drops
duplicates and forwards first occurrences.  The hash function is an
oracle parameter; the per-run `processedSet` and the counters are
explicit state.  The stage is a pool of `numReaders` worker
goroutines; `isDuplicate` takes a read lock and `markProcessed` a
separate write lock, so the check and the mark of one item are two
distinct critical sections with an unprotected window between them.
Two models are given: a sequential fold in which check and mark are
one atomic step (the serialized reference semantics, realized e.g. by
a single worker), and a pool model whose micro-steps are exactly the
critical sections of the source, driven by an explicit interleaving
schedule. -/

/-- The fields of a `FileItem` the read-stage deduplication touches. -/
structure ReadItem where
  path : String
  content : List Char
deriving DecidableEq, Repr

/-- The read-stage state: the per-run processed-hash set and the
statistics counters it updates. -/
structure ReadState where
  processedSet : List String
  duplicatesSkipped : Int
  buffersReturned : Nat
  readCount : Int
  bytesScanned : Int
  forwarded : List ReadItem
deriving DecidableEq, Repr

/-- Model of `PipelineScanner.isDuplicate`: membership of the content hash in the
processed set. -/
def isDuplicate (st : ReadState) (hash : String) : Bool :=
  st.processedSet.contains hash

/-- Model of `PipelineScanner.markProcessed`. -/
def markProcessed (st : ReadState) (hash : String) : ReadState :=
  { st with processedSet := hash :: st.processedSet }

/-- Completion half of one read-stage iteration, given the result
`dup` that the earlier duplicate check returned: on a duplicate the
pooled buffer is returned and `DuplicatesSkipped` is bumped; otherwise
`markProcessed` runs (its own lock acquisition), `Read` and
`BytesScanned` are updated and the item is forwarded to the `read`
channel. -/
def completeItem (h : List Char → String) (st : ReadState)
    (item : ReadItem) (dup : Bool) : ReadState :=
  if dup then
    { st with duplicatesSkipped := st.duplicatesSkipped + 1,
              buffersReturned := st.buffersReturned + 1 }
  else
    let st := markProcessed st (h item.content)
    { st with readCount := st.readCount + 1,
              bytesScanned := st.bytesScanned + item.content.length,
              forwarded := st.forwarded ++ [item] }

/-- One iteration of the read-stage loop after a successful read, with
`isDuplicate` and the completion taken as a single atomic step: the
serialized reference semantics of the loop body. -/
def readStep (h : List Char → String) (st : ReadState) (item : ReadItem) : ReadState :=
  completeItem h st item (isDuplicate st (h item.content))

/-- The initial read-stage state of a scan run. -/
def initialReadState : ReadState :=
  { processedSet := [], duplicatesSkipped := 0, buffersReturned := 0,
    readCount := 0, bytesScanned := 0, forwarded := [] }

/-- The read stage over a sequence of successfully read items,
serialized: every execution with one reader worker computes this. -/
def runReadStage (h : List Char → String) (items : List ReadItem) : ReadState :=
  items.foldl (readStep h) initialReadState

/-- One worker goroutine of the read-stage pool: the items it will
still take from the `filtered` channel and, while it sits between its
duplicate check and the subsequent completion, the checked item
together with the result the check returned. -/
structure ReadWorker where
  pending : List ReadItem
  checked : Option (ReadItem × Bool)
deriving DecidableEq, Repr

/-- The shared read-stage state together with the local state of every
worker in the pool. -/
structure PoolState where
  shared : ReadState
  workers : List ReadWorker
deriving DecidableEq, Repr

/-- One atomic micro-step of worker `i`, mirroring the critical
sections of the source: a worker that has performed its duplicate
check completes the item (drop, or mark-and-forward — `markProcessed`
takes the write lock only now); otherwise it takes its next item and
runs `isDuplicate` under the read lock, remembering the answer.
Off-range indices and finished workers leave the state unchanged. -/
def poolStep (h : List Char → String) (ps : PoolState) (i : Nat) : PoolState :=
  match ps.workers[i]? with
  | none => ps
  | some w =>
    match w.checked with
    | some (item, dup) =>
      { shared := completeItem h ps.shared item dup,
        workers := ps.workers.set i { w with checked := none } }
    | none =>
      match w.pending with
      | [] => ps
      | item :: rest =>
        { shared := ps.shared,
          workers := ps.workers.set i
            { pending := rest,
              checked := some (item, isDuplicate ps.shared (h item.content)) } }

/-- The read-stage worker pool run under an explicit interleaving: the
schedule lists which worker performs the next micro-step. -/
def runReadPool (h : List Char → String) (ps : PoolState) (sched : List Nat) : PoolState :=
  sched.foldl (poolStep h) ps

/-- Hash oracle for the concrete pool runs: the content itself (SHA-256
is injective on the two one-byte contents involved). -/
def hashId (cs : List Char) : String := String.mk cs

/-- First of two byte-identical files entering the read stage. -/
def dupItemA : ReadItem := { path := "a.txt", content := ['x'] }

/-- Second of two byte-identical files entering the read stage. -/
def dupItemB : ReadItem := { path := "b.txt", content := ['x'] }

/-- Pool of two reader workers, each about to process one of the two
byte-identical files. -/
def racePool : PoolState :=
  { shared := initialReadState,
    workers := [{ pending := [dupItemA], checked := none },
                { pending := [dupItemB], checked := none }] }

/-! ## Match and report stages (`startMatchStage` / `startReportStage`)

Only the buffer hand-off and the construction of the published
`ScanResult` are modelled; matching itself is a per-item result. -/

/-- The fields of a `FileItem` relevant to the match → report hand-off.
`content = none` models a nil slice, `contentPool` whether the item
still holds a pool reference. -/
structure FileItem where
  Path : String
  Content : Option (List Char)
  ContentPool : Bool
  Matches : List Int
  Timeouts : List Int
deriving DecidableEq, Repr

/-- Model of `PipelineScanner.returnBuffer`: put the buffer back and nil out
`Content` and `ContentPool`, when both are non-nil. -/
def returnBuffer (item : FileItem) : FileItem :=
  if item.ContentPool ∧ item.Content.isSome then
    { item with Content := none, ContentPool := false }
  else item

/-- The tail of one match-stage iteration: record matches and timeouts
on the item, then release the content buffer, then forward. -/
def matchStageStep (item : FileItem) (ms ts : List Int) : FileItem :=
  returnBuffer { item with Matches := ms, Timeouts := ts }

/-- The pipeline `ScanResult` as built by `startReportStage`. -/
structure ScanResult where
  Path : String
  Matches : List Int
  Timeouts : List Int
  ScannedBytes : Int
deriving DecidableEq, Repr

/-- The Go `len` of a nilable slice: 0 for nil. -/
def contentLen (c : Option (List Char)) : Int :=
  match c with
  | none => 0
  | some l => l.length

/-- One report-stage iteration: the published result, with
`ScannedBytes: int64(len(item.Content))`. -/
def reportStep (item : FileItem) : ScanResult :=
  { Path := item.Path, Matches := item.Matches, Timeouts := item.Timeouts,
    ScannedBytes := contentLen item.Content }

/-! ## `PipelineScanner.Scan` / `Shutdown` argument validation

The scanner state named by claim C10 (statistics, channels, the
processed-hash set, started stages) is carried explicitly; `Scan`
either rejects with a validation error leaving it untouched, or starts
the five stages. -/

/-- The mutable scanner state observed by `Scan` and `Shutdown`. -/
structure PipelineState where
  shutdown : Bool
  scanID : String
  statsReset : Bool
  channelsCreated : Bool
  stagesStarted : Nat
  processedSet : List String
  monitorStopped : Bool
  rateLimiterClosed : Bool
deriving DecidableEq, Repr

/-- Error codes from `errors.go` (the subset used here). -/
inductive ScanErrorCode where
  | validation
  | fileRead
  | circuitOpen
deriving DecidableEq, Repr

/-- The outcome of `PipelineScanner.Scan`: whether a (non-nil) results
channel was returned, the error if any, and the scanner state after the
call. -/
structure ScanOutcome where
  resultsChan : Bool
  err : Option ScanErrorCode
  state : PipelineState
deriving DecidableEq, Repr

/-- Model of `PipelineScanner.Scan`: an empty path list or a shut-down scanner
yields `(nil, validation error)` before any state is touched; otherwise
the scan ID is generated, stats reset, channels created and the five
stages started. -/
def PipelineScanner.Scan (p : PipelineState) (paths : List String) (genID : String) :
    ScanOutcome :=
  if paths.length = 0 then
    { resultsChan := false, err := some .validation, state := p }
  else if p.shutdown then
    { resultsChan := false, err := some .validation, state := p }
  else
    { resultsChan := true, err := none,
      state := { p with scanID := genID, statsReset := true,
                        channelsCreated := true, stagesStarted := 5 } }

/-- Model of `PipelineScanner.Shutdown`: idempotently mark the pipeline shut
down, stop the monitor and close the rate limiter. -/
def PipelineScanner.Shutdown (p : PipelineState) : PipelineState :=
  if p.shutdown then p
  else { p with shutdown := true, monitorStopped := true, rateLimiterClosed := true }

/-! ## Two-layer regex engine (`regex.go`: `isRE2Compatible`, `CompileRegex`)

The RE2 and regexp2 libraries are oracles (`re2Ok`, `pcreOk` for compile
success, `re2Find`, `pcreFind` for match results); the compatibility
pre-check is string processing inside the repository and is embedded in
full.  Patterns are byte strings (`List Char`). -/

/-- Model of `re2MaxRepetition`. -/
def re2MaxRepetition : Nat := 1000

/-- Model of `re2MaxNestedProduct`. -/
def re2MaxNestedProduct : Nat := 1000

/-- Split off the leading run of decimal digits. -/
def takeDigits : List Char → List Char × List Char
  | [] => ([], [])
  | c :: cs =>
    if c.isDigit then
      let r := takeDigits cs
      (c :: r.1, r.2)
    else ([], c :: cs)

/-- Parse the body of the quantifier regexp `\{(\d+)(?:,(\d*))?\}` right
after the opening brace: the two digit groups (the second empty for
`{n}` and for `{n,}`, exactly as Go reports `match[2] = ""` for both)
and the remaining input after the closing brace. -/
def parseRepAt (l : List Char) : Option ((List Char × List Char) × List Char) :=
  let p := takeDigits l
  if p.1.isEmpty then none
  else
    match p.2 with
    | '}' :: r => some ((p.1, []), r)
    | ',' :: r2 =>
      let q := takeDigits r2
      match q.2 with
      | '}' :: r => some ((p.1, q.1), r)
      | _ => none
    | _ => none

/-- Model of `repetitionPattern.FindAllStringSubmatch`: scan left to right for
non-overlapping matches of `\{(\d+)(?:,(\d*))?\}`, collecting the digit
groups.  The fuel argument bounds the recursion; each step consumes at
least one character, so fuel equal to the input length suffices. -/
def findRepsAux : Nat → List Char → List (List Char × List Char)
  | 0, _ => []
  | _ + 1, [] => []
  | fuel + 1, c :: rest =>
    if c = '{' then
      match parseRepAt rest with
      | some (m, r) => m :: findRepsAux fuel r
      | none => findRepsAux fuel rest
    else findRepsAux fuel rest

/-- All quantifier matches of `repetitionPattern` in the pattern. -/
def findReps (pattern : List Char) : List (List Char × List Char) :=
  findRepsAux pattern.length pattern

/-- Model of `groupRepetitionPattern.FindAllStringSubmatch` reduced to what the
pre-check consumes (`len(groupMatches) > 0`): whether the pattern
contains a match of `\)\{(\d+)(?:,(\d*))?\}`. -/
def hasGroupRepAux : Nat → List Char → Bool
  | 0, _ => false
  | _ + 1, [] => false
  | fuel + 1, c :: rest =>
    if c = ')' then
      match rest with
      | '{' :: r2 =>
        match parseRepAt r2 with
        | some _ => true
        | none => hasGroupRepAux fuel rest
      | _ => hasGroupRepAux fuel rest
    else hasGroupRepAux fuel rest

/-- Whether a group-followed-by-quantifier occurrence exists. -/
def hasGroupRep (pattern : List Char) : Bool :=
  hasGroupRepAux pattern.length pattern

/-- ASCII letter test used by the escape-digit scan. -/
def isAsciiLetter (c : Char) : Bool :=
  ('a' ≤ c && c ≤ 'z') || ('A' ≤ c && c ≤ 'Z')

/-- The final loop of `isRE2Compatible`: a backslash followed by a
digit 1-9 followed by a letter anywhere in the pattern.  The Go loop
advances one byte at a time and only fires when the letter position is
still inside the pattern. -/
def hasEscDigitLetter : List Char → Bool
  | '\\' :: d :: f :: rest =>
    if ('1' ≤ d && d ≤ '9') && isAsciiLetter f then true
    else hasEscDigitLetter (d :: f :: rest)
  | _ :: rest => hasEscDigitLetter rest
  | [] => false

/-- The PCRE-only escape sequences rejected outright. -/
def pcreOnlyEscapes : List (List Char) :=
  [['\\', 'Z'], ['\\', 'h'], ['\\', 'H'], ['\\', 'V'], ['\\', 'R'], ['\\', 'K'], ['\\', 'G']]

/-- The two-largest computation of the nested-product check: the Go
running `largest` / `secondLargest` pair. -/
def twoLargest (reps : List Nat) : Nat × Nat :=
  reps.foldl
    (fun p r =>
      if p.1 < r then (r, p.1)
      else if p.2 < r then (p.1, r)
      else p)
    (0, 0)

/-- The per-match maximum endpoint (`maxVal` in Go): the value of the first
group when it parses, improved by the second group when that
group is non-empty and parses.  A parse failure (overflow) contributes
nothing. -/
def repMaxVal (m : List Char × List Char) : Nat :=
  let n := match goAtoi m.1 with | some n => n | none => 0
  let k := if m.2.isEmpty then 0 else match goAtoi m.2 with | some k => k | none => 0
  max n k

/-- Whether a quantifier match has a parsed endpoint exceeding
`re2MaxRepetition` (the early `return false` inside the collection
loop). -/
def repTooLarge (m : List Char × List Char) : Bool :=
  (match goAtoi m.1 with
   | some n => decide (re2MaxRepetition < n)
   | none => false) ||
  (!m.2.isEmpty &&
   match goAtoi m.2 with
   | some k => decide (re2MaxRepetition < k)
   | none => false)

/-- Model of `isRE2Compatible`: the linear-time compatibility pre-check of
`regex.go` — PCRE-only escapes, `\b` in a character class, oversized or
multiplicatively nested quantifiers, and ambiguous escape-digit-letter
sequences all reject. -/
def isRE2Compatible (pattern : List Char) : Bool :=
  if pcreOnlyEscapes.any (fun esc => strContains esc pattern) then false
  else if strContains ['[', '\\', 'b'] pattern || strContains ['\\', 'b', ']'] pattern then
    false
  else
    let ms := findReps pattern
    if ms.any repTooLarge then false
    else
      let repetitions := ms.filterMap (fun m =>
        let mv := repMaxVal m
        if 0 < mv then some mv else none)
      if hasGroupRep pattern && 1 < repetitions.length then
        let tl := twoLargest repetitions
        if re2MaxNestedProduct < tl.1 * tl.2 then false
        else if 3 < repetitions.length && repetitions.any (fun r => 50 < r) then false
        else if hasEscDigitLetter pattern then false
        else true
      else if hasEscDigitLetter pattern then false
      else true

/-- Model of `scanner.CompiledRegex`: which engines compiled, the stored PCRE
match timeout and the original pattern text.  The library pattern
handles themselves are external; `re2Compiled` models
`re2Pattern != nil` and `useRE2` the flag of the same name. -/
structure CompiledRegex where
  re2Compiled : Bool
  useRE2 : Bool
  pcreTimeout : Int
  original : List Char
deriving DecidableEq, Repr

/-- Model of `CompileRegex`: run the `isRE2Compatible` pre-check and, on
success, attempt RE2 compilation (`re2Ok`); always compile with
regexp2 (`pcreOk`), failing the whole call only when regexp2 rejects
the pattern; record the per-pattern timeout on the PCRE handle. -/
def CompileRegex (re2Ok pcreOk : List Char → Bool) (pattern : List Char) (timeout : Int) :
    Option CompiledRegex :=
  let re2Success := isRE2Compatible pattern && re2Ok pattern
  if pcreOk pattern then
    some { re2Compiled := re2Success, useRE2 := re2Success,
           pcreTimeout := timeout, original := pattern }
  else none

/-- Model of `CompiledRegex.FindStringMatch` reduced to engine selection: the
RE2 oracle result is used when `useRE2` and an RE2 handle exist,
otherwise the PCRE oracle result. -/
def CompiledRegex.FindStringMatch (cr : CompiledRegex)
    (re2Find pcreFind : List Char → Option (List Char × Nat)) (s : List Char) :
    Option (List Char × Nat) :=
  if cr.useRE2 && cr.re2Compiled then re2Find s else pcreFind s

/-- Model of `Matcher.compilePattern` of the pipeline matcher: delegate
to the multi-layer `CompileRegex` with the matcher timeout. -/
def Matcher.compilePattern (re2Ok pcreOk : List Char → Bool) (timeout : Int)
    (pattern : List Char) : Option CompiledRegex :=
  CompileRegex re2Ok pcreOk pattern timeout

/-! ## Signature matcher (`matcher.go`: `Matcher`, `MatchContext`)

The signature-level regex engine is an oracle `rmatch` keyed by
signature ID; the compiled pattern of a common string is the escaped literal,
whose `FindStringMatch` semantics is exactly substring occurrence
(`strContains`), with `csOk idx` modelling whether the escaped pattern
compiled (`Pattern != nil`).  Go map iteration order is modelled by
list order; the proved properties are order-independent. -/

/-- Model of `intel.CommonString`: the literal byte string and the IDs of the
signatures referencing it. -/
structure CommonString where
  str : List Char
  SignatureIDs : List Int
deriving DecidableEq, Repr

/-- Model of `intel.Signature`.  `CommonStrings` holds indices into the
common-string sequence of the signature set; the invariant makes
them valid indices, so they are carried as `Nat`. -/
structure Signature where
  ID : Int
  Rule : List Char
  CommonStrings : List Nat
deriving DecidableEq, Repr

/-- Model of `Signature.HasCommonStrings`. -/
def Signature.HasCommonStrings (s : Signature) : Bool :=
  0 < s.CommonStrings.length

/-- Model of `Signature.GetCommonStringCount`. -/
def Signature.GetCommonStringCount (s : Signature) : Nat :=
  s.CommonStrings.length

/-- Model of `intel.SignatureSet`: the ordered common strings and the ID-keyed
signature map (as an association list). -/
structure SignatureSet where
  CommonStrings : List CommonString
  Signatures : List (Int × Signature)
deriving DecidableEq, Repr

/-- Model of `scanner.CompiledSignature`: `hasPattern` models
`Pattern != nil` (regex compile success) as decided by the `sigOk`
oracle; `AnchoredStart` is `strings.HasPrefix(sig.Rule, "^")`. -/
structure CompiledSignature where
  Signature : Signature
  hasPattern : Bool
  AnchoredStart : Bool
deriving DecidableEq, Repr

/-- Model of `scanner.Matcher` after `compileSignatures`. -/
structure Matcher where
  signatures : List (Int × CompiledSignature)
  commonStrings : List CommonString
  noCommonStrSigs : List CompiledSignature
  matchAll : Bool
deriving DecidableEq, Repr

/-- Model of `Matcher.compileSignatures` + `NewMatcher`: compile every signature
(the `sigOk` oracle decides regex compile success) and collect the
signatures without common strings whose pattern compiled. -/
def NewMatcher (sigSet : SignatureSet) (sigOk : Int → Bool) (matchAll : Bool) : Matcher :=
  let compiled := sigSet.Signatures.map (fun p =>
    (p.1, { Signature := p.2, hasPattern := sigOk p.1,
            AnchoredStart := leadsWith ['^'] p.2.Rule : CompiledSignature }))
  { signatures := compiled,
    commonStrings := sigSet.CommonStrings,
    noCommonStrSigs := compiled.filterMap (fun p =>
      if !p.2.Signature.HasCommonStrings && p.2.hasPattern then some p.2 else none),
    matchAll := matchAll }

/-- A recorded match (`scanner.MatchResult`). -/
structure MatchResult where
  SignatureID : Int
  MatchedString : List Char
  Position : Nat
deriving DecidableEq, Repr

/-- The regex oracle answer for one signature pattern on one
content: an error (timeout or other), no match, or a first match. -/
inductive RegexOutcome where
  | errTimeout
  | errOther
  | noMatch
  | found (s : List Char) (pos : Nat)
deriving DecidableEq, Repr

/-- Model of `scanner.MatchContext`: the per-file match map (association list
keyed by signature ID), timeout set and common-string observed states. -/
structure MatchContext where
  matchMap : List (Int × MatchResult)
  timeouts : List Int
  commonStringStates : List Bool
deriving DecidableEq, Repr

/-- Model of `Matcher.NewMatchContext`: fresh maps and an all-false
common-string state vector. -/
def Matcher.NewMatchContext (m : Matcher) : MatchContext :=
  { matchMap := [], timeouts := [], commonStringStates := List.replicate m.commonStrings.length false }

/-- The `commonStringCounts` map of `checkCommonStrings`, as an
association list; `bump` is the `counts[sigID]++` update. -/
def bump : List (Int × Nat) → Int → List (Int × Nat)
  | [], k => [(k, 1)]
  | (k0, v) :: rest, k =>
    if k0 = k then (k0, v + 1) :: rest else (k0, v) :: bump rest k

/-- The inner loop over `cs.CommonString.SignatureIDs`: bump each
signature ID that has no entry in the match map yet. -/
def addContribs (matchMap : List (Int × MatchResult)) (counts : List (Int × Nat))
    (ids : List Int) : List (Int × Nat) :=
  ids.foldl (fun cts sigID =>
    if (matchMap.lookup sigID).isSome then cts else bump cts sigID) counts

/-- One iteration of the `checkCommonStrings` loop at index `idx`:
an already-observed common string contributes directly; otherwise a
compiled pattern that finds the literal in the content marks the state
and contributes. -/
def csStep (csOk : Nat → Bool) (content : List Char) (mc : MatchContext)
    (counts : List (Int × Nat)) (idx : Nat) (cs : CommonString) :
    MatchContext × List (Int × Nat) :=
  if mc.commonStringStates.getD idx false then
    (mc, addContribs mc.matchMap counts cs.SignatureIDs)
  else if !csOk idx then
    (mc, counts)
  else if strContains cs.str content then
    ({ mc with commonStringStates := mc.commonStringStates.set idx true },
     addContribs mc.matchMap counts cs.SignatureIDs)
  else (mc, counts)

/-- The counting pass of `MatchContext.checkCommonStrings`: fold the
indexed common strings, updating the observed states and the
per-signature counts. -/
def checkCommonStringsLoop (csOk : Nat → Bool) (content : List Char)
    (mc : MatchContext) (counts : List (Int × Nat)) :
    List (Nat × CommonString) → MatchContext × List (Int × Nat)
  | [] => (mc, counts)
  | (idx, cs) :: rest =>
    let r := csStep csOk content mc counts idx cs
    checkCommonStringsLoop csOk content r.1 r.2 rest

/-- The selection pass of `checkCommonStrings`: signatures whose count
equals their common-string count become the possible signatures. -/
def possibleSigs (m : Matcher) (counts : List (Int × Nat)) : List CompiledSignature :=
  counts.filterMap (fun p =>
    match m.signatures.lookup p.1 with
    | none => none
    | some sig =>
      if p.2 = sig.Signature.GetCommonStringCount then some sig else none)

/-- Model of `MatchContext.checkCommonStrings`: observed states are updated in
place; the returned list is the possible signatures. -/
def checkCommonStrings (m : Matcher) (csOk : Nat → Bool) (content : List Char)
    (mc : MatchContext) : MatchContext × List CompiledSignature :=
  let r := checkCommonStringsLoop csOk content mc [] m.commonStrings.enum
  (r.1, possibleSigs m r.2)

/-- Model of `MatchContext.matchSignature`: skip a nil pattern, an anchored
pattern off the start, or an already-matched ID; otherwise consult the
regex oracle, recording timeouts and first matches. -/
def matchSignature (rmatch : Int → List Char → RegexOutcome) (mc : MatchContext)
    (sig : CompiledSignature) (content : List Char) (isStart : Bool) :
    Bool × MatchContext :=
  if !sig.hasPattern then (false, mc)
  else if sig.AnchoredStart && !isStart then (false, mc)
  else if (mc.matchMap.lookup sig.Signature.ID).isSome then (false, mc)
  else
    match rmatch sig.Signature.ID content with
    | .errTimeout => (false, { mc with timeouts := sig.Signature.ID :: mc.timeouts })
    | .errOther => (false, mc)
    | .noMatch => (false, mc)
    | .found s pos =>
      (true,
       { mc with matchMap :=
           (sig.Signature.ID,
            { SignatureID := sig.Signature.ID, MatchedString := s, Position := pos }) ::
             mc.matchMap })

/-- One signature loop of `MatchChunk`: evaluate each signature in
order, stopping early after the first hit unless `matchAll` is set.
The returned flag records the early `return nil`. -/
def runSigs (rmatch : Int → List Char → RegexOutcome) (matchAll : Bool)
    (mc : MatchContext) (content : List Char) (isStart : Bool) :
    List CompiledSignature → Bool × MatchContext
  | [] => (false, mc)
  | sig :: rest =>
    let r := matchSignature rmatch mc sig content isStart
    if r.1 && !matchAll then (true, r.2)
    else runSigs rmatch matchAll r.2 content isStart rest

/-- Model of `MatchContext.MatchChunk`: prefilter by common strings, then match
the signatures without common strings, then the possible signatures. -/
def MatchChunk (m : Matcher) (rmatch : Int → List Char → RegexOutcome)
    (csOk : Nat → Bool) (mc : MatchContext) (content : List Char) (isStart : Bool) :
    MatchContext :=
  let pre := checkCommonStrings m csOk content mc
  let r1 := runSigs rmatch m.matchAll pre.1 content isStart m.noCommonStrSigs
  if r1.1 then r1.2
  else (runSigs rmatch m.matchAll r1.2 content isStart pre.2).2

/-- Model of `MatchContext.Match`: a whole-file match is a chunk match on a
fresh context with `isStart = true`. -/
def MatcherMatch (m : Matcher) (rmatch : Int → List Char → RegexOutcome)
    (csOk : Nat → Bool) (content : List Char) : MatchContext :=
  MatchChunk m rmatch csOk m.NewMatchContext content true

/-- The data-model invariant of §3 of the specification, for one
signature set: the signature map keys are the signature IDs and are
unique, every common-string index on a signature is a valid index, the
index lists and the per-common-string signature-ID lists are duplicate
free and mutually consistent (a signature lists index `k` exactly when
common string `k` lists the ID of the signature). -/
def DataModelInv (ss : SignatureSet) : Prop :=
  (∀ p ∈ ss.Signatures, p.1 = p.2.ID) ∧
  (ss.Signatures.map Prod.fst).Nodup ∧
  (∀ p ∈ ss.Signatures, ∀ k ∈ p.2.CommonStrings, k < ss.CommonStrings.length) ∧
  (∀ p ∈ ss.Signatures, p.2.CommonStrings.Nodup) ∧
  (∀ cs ∈ ss.CommonStrings, cs.SignatureIDs.Nodup) ∧
  (∀ p ∈ ss.Signatures, ∀ k, k < ss.CommonStrings.length →
    (k ∈ p.2.CommonStrings ↔ p.2.ID ∈ (ss.CommonStrings.getD k ⟨[], []⟩).SignatureIDs))

/-! # Theorems -/

/-! ## C8/C9: version comparison -/

theorem cmpSegs_self : ∀ a : List Nat, cmpSegs a a = 0 := by
  intro a
  induction a with
  | nil => rfl
  | cons p t ih => simp [cmpSegs, ih]

theorem cmpZero_replicate : ∀ k : Nat, cmpZero (List.replicate k 0) = 0 := by
  intro k
  induction k with
  | zero => rfl
  | succ n ih => simp [List.replicate, cmpZero, ih]

theorem cmpSegs_replicate_nil : ∀ k : Nat, cmpSegs (List.replicate k 0) [] = 0 := by
  intro k
  induction k with
  | zero => rfl
  | succ n ih => simp [List.replicate, cmpSegs, ih]

theorem cmpSegs_pad_right : ∀ (a : List Nat) (k : Nat),
    cmpSegs a (a ++ List.replicate k 0) = 0 := by
  intro a k
  induction a with
  | nil => simp [cmpSegs, cmpZero_replicate]
  | cons p t ih => simp [cmpSegs, ih]

theorem cmpSegs_pad_left : ∀ (a : List Nat) (k : Nat),
    cmpSegs (a ++ List.replicate k 0) a = 0 := by
  intro a k
  induction a with
  | nil =>
    cases k with
    | zero => rfl
    | succ n => simp [List.replicate, cmpSegs, cmpSegs_replicate_nil]
  | cons p t ih => simp [cmpSegs, ih]

/-- C8: Version-range inclusion accepts a version v iff both endpoints
are the wildcard, or every non-wildcard endpoint admits v: the from
endpoint with from < v or from = v with from-inclusive, the to endpoint
with v < to or v = to with to-inclusive (comparisons by
`CompareVersions`).  In particular, for the range from 1.2.0 inclusive
to 1.3.5 exclusive: 1.1.9 is excluded, 1.2.0 and 1.3.4 are included,
and 1.3.5 is excluded. -/
theorem claim_C8 :
    (∀ (vr : VersionRange) (v : String),
      vr.Includes v = true ↔
        ((vr.FromVersion = "*" ∧ vr.ToVersion = "*") ∨
         ((vr.FromVersion ≠ "*" →
            CompareVersions vr.FromVersion v < 0 ∨
            (CompareVersions vr.FromVersion v = 0 ∧ vr.FromInclusive = true)) ∧
          (vr.ToVersion ≠ "*" →
            0 < CompareVersions vr.ToVersion v ∨
            (CompareVersions vr.ToVersion v = 0 ∧ vr.ToInclusive = true))))) ∧
    (VersionRange.mk "1.2.0" true "1.3.5" false).Includes "1.1.9" = false ∧
    (VersionRange.mk "1.2.0" true "1.3.5" false).Includes "1.2.0" = true ∧
    (VersionRange.mk "1.2.0" true "1.3.5" false).Includes "1.3.4" = true ∧
    (VersionRange.mk "1.2.0" true "1.3.5" false).Includes "1.3.5" = false := by
  refine ⟨?_, by decide, by decide, by decide, by decide⟩
  intro vr v
  unfold VersionRange.Includes VersionAny
  by_cases hf : vr.FromVersion = "*" <;> by_cases ht : vr.ToVersion = "*" <;>
    cases hfi : vr.FromInclusive <;> cases hti : vr.ToInclusive <;>
    rcases lt_trichotomy (CompareVersions vr.FromVersion v) 0 with h1 | h1 | h1 <;>
    rcases lt_trichotomy (CompareVersions vr.ToVersion v) 0 with h2 | h2 | h2 <;>
    simp [hf, ht, hfi, hti, h1, h2] <;> omega

/-- C9: the version comparator drops every segment with no leading
decimal digit (rather than treating it as 0) and pads missing trailing
segments with 0; two versions with equal normalizations compare equal,
so versions differing only in wholly non-numeric segments or in
trailing zero segments compare equal — in particular
`CompareVersions "1.0-alpha" "1.0" = 0` and
`CompareVersions "1.2" "1.2.0.0" = 0`. -/
theorem claim_C9 :
    (∀ v1 v2 : String, normalizeVersion v1.toList = normalizeVersion v2.toList →
      CompareVersions v1 v2 = 0) ∧
    (∀ (seg : List Char) (rest : List (List Char)),
      (∀ c, seg.head? = some c → c.isDigit = false) →
      segsToNums (seg :: rest) = segsToNums rest) ∧
    (∀ (a : List Nat) (k : Nat),
      cmpSegs a (a ++ List.replicate k 0) = 0 ∧
      cmpSegs (a ++ List.replicate k 0) a = 0) ∧
    CompareVersions "1.0-alpha" "1.0" = 0 ∧
    CompareVersions "1.2" "1.2.0.0" = 0 := by
  refine ⟨?_, ?_, ?_, by decide, by decide⟩
  · intro v1 v2 h
    unfold CompareVersions
    rw [h]
    exact cmpSegs_self _
  · intro seg rest h
    have hseg : segToNum seg = none := by
      unfold segToNum
      cases seg with
      | nil => simp
      | cons c cs =>
        have := h c rfl
        simp [List.takeWhile, this]
    simp [segsToNums, List.filterMap_cons, hseg]
  · intro a k
    exact ⟨cmpSegs_pad_right a k, cmpSegs_pad_left a k⟩

/-- Witness for C9: the hypotheses hold at concrete inputs. -/
theorem claim_C9_witness :
    CompareVersions "3.1-beta" "3.1" = 0 ∧
    segsToNums (['r', 'c'] :: [['2']]) = segsToNums [['2']] ∧
    cmpSegs [1, 2] ([1, 2] ++ List.replicate 3 0) = 0 :=
  ⟨claim_C9.1 "3.1-beta" "3.1" (by decide),
   claim_C9.2.1 ['r', 'c'] [['2']] (by decide),
   (claim_C9.2.2.1 [1, 2] 3).1⟩

/-! ## C10: Scan argument validation -/

/-- C10: `Scan` with an empty path list returns a nil result channel
and a validation scan error without starting any pipeline stage, and
`Scan` after `Shutdown` does the same; in both cases the scanner state
(statistics, channels, processed-hash set) is unchanged. -/
theorem claim_C10 : ∀ (p : PipelineState) (genID : String) (paths : List String),
    PipelineScanner.Scan p [] genID =
      { resultsChan := false, err := some .validation, state := p } ∧
    PipelineScanner.Scan (PipelineScanner.Shutdown p) paths genID =
      { resultsChan := false, err := some .validation,
        state := PipelineScanner.Shutdown p } := by
  intro p genID paths
  constructor
  · rfl
  · have hsd : (PipelineScanner.Shutdown p).shutdown = true := by
      unfold PipelineScanner.Shutdown
      by_cases h : p.shutdown <;> simp [h]
    unfold PipelineScanner.Scan
    by_cases hp : paths.length = 0 <;> simp [hp, hsd]

/-! ## C3: bytes scanned in the published result (code bug) -/

/-- C3 (bug evaluation): for a file whose read stage produced 5 content
bytes, the match stage releases the buffer (`returnBuffer` nils out
`Content`), so the `ScanResult` built by the report stage carries
`ScannedBytes = 0`, not the 5 bytes actually read. -/
theorem claim_C3 :
    (reportStep (matchStageStep
        { Path := "/tmp/a.php", Content := some "hello".toList, ContentPool := true,
          Matches := [], Timeouts := [] } [1] [])).ScannedBytes = 0 ∧
    contentLen (some "hello".toList) = 5 ∧
    (∀ (item : FileItem) (ms ts : List Int), item.ContentPool = true →
      item.Content.isSome = true →
      (reportStep (matchStageStep item ms ts)).ScannedBytes = 0) := by
  refine ⟨by decide, by decide, ?_⟩
  intro item ms ts hpool hsome
  simp [reportStep, matchStageStep, returnBuffer, hpool, hsome, contentLen]

/-- Witness for C3: the general statement applied at the concrete item. -/
theorem claim_C3_witness :
    (reportStep (matchStageStep
        { Path := "/w.php", Content := some ['a', 'b'], ContentPool := true,
          Matches := [], Timeouts := [] } [] [7])).ScannedBytes = 0 :=
  claim_C3.2.2
    { Path := "/w.php", Content := some ['a', 'b'], ContentPool := true,
      Matches := [], Timeouts := [] } [] [7] rfl rfl

/-! ## C6: byte-rate limiter token count (corrected) -/

/-- C6 refutation: the claim says `WaitForBytes` acquires ⌈n/c⌉ tokens;
for n = 6144 bytes and c = 4096 the code performs
`int(6144/4096) = 1` acquisition while ⌈6144/4096⌉ = 2. -/
theorem claim_C6_counterexample :
    (WaitForBytes (fun _ => WaitOutcome.ok) 6144 4096).1 = 1 ∧
    (WaitForBytes (fun _ => WaitOutcome.ok) 6144 4096).2 = none ∧
    ((6144 : Nat) + 4096 - 1) / 4096 = 2 ∧ (1 : Nat) ≠ 2 := by decide

theorem waitLoop_all_ok : ∀ (n acc : Nat) (w : Nat → WaitOutcome),
    (∀ i, acc ≤ i → i < acc + n → w i = .ok) →
    waitLoop w n acc = (acc + n, none) := by
  intro n
  induction n with
  | zero => intro acc w _; simp [waitLoop]
  | succ k ih =>
    intro acc w h
    have hacc : w acc = .ok := h acc le_rfl (by omega)
    simp only [waitLoop, hacc]
    have := ih (acc + 1) w (fun i h1 h2 => h i (by omega) (by omega))
    rw [this]
    congr 1
    omega

theorem waitLoop_stops : ∀ (n acc j : Nat) (w : Nat → WaitOutcome),
    acc ≤ j → j < acc + n → (∀ i, acc ≤ i → i < j → w i = .ok) → w j ≠ .ok →
    waitLoop w n acc = (j, some (w j)) := by
  intro n
  induction n with
  | zero => intro acc j w h1 h2; omega
  | succ k ih =>
    intro acc j w h1 h2 hok hbad
    by_cases hj : acc = j
    · subst hj
      cases hw : w acc with
      | ok => exact absurd hw hbad
      | cancelled => simp [waitLoop, hw]
      | closedErr => simp [waitLoop, hw]
    · have hacc : w acc = .ok := hok acc le_rfl (by omega)
      simp only [waitLoop, hacc]
      exact ih (acc + 1) j w (by omega) (by omega)
        (fun i hi1 hi2 => hok i (by omega) hi2) hbad

/-- C6 (amended): `WaitForBytes` acquires exactly
`max 1 ⌊n/c⌋` tokens — not ⌈n/c⌉ — performing that many sequential
`Wait` calls; it succeeds when every call grants a token and otherwise
returns at the first `Wait` that was interrupted (context cancellation
or limiter close), propagating that error. -/
theorem claim_C6 : ∀ (w : Nat → WaitOutcome) (bytes chunk : Int),
    0 ≤ bytes → 0 < chunk →
    (tokensNeeded bytes chunk).toNat = max 1 (Int.tdiv bytes chunk).toNat ∧
    ((∀ i, i < (tokensNeeded bytes chunk).toNat → w i = .ok) →
      WaitForBytes w bytes chunk = ((tokensNeeded bytes chunk).toNat, none)) ∧
    (∀ j, j < (tokensNeeded bytes chunk).toNat → (∀ i, i < j → w i = .ok) →
      w j ≠ .ok → WaitForBytes w bytes chunk = (j, some (w j))) := by
  intro w bytes chunk hb hc
  have htd : 0 ≤ Int.tdiv bytes chunk := Int.tdiv_nonneg hb (le_of_lt hc)
  refine ⟨?_, ?_, ?_⟩
  · unfold tokensNeeded
    by_cases h : Int.tdiv bytes chunk = 0
    · simp [h]
    · simp [h]
      omega
  · intro h
    unfold WaitForBytes
    have := waitLoop_all_ok (tokensNeeded bytes chunk).toNat 0 w
      (fun i _ hi => h i (by omega))
    rw [this, Nat.zero_add]
  · intro j hj hok hbad
    unfold WaitForBytes
    exact waitLoop_stops _ 0 j w (by omega) (by omega)
      (fun i _ hi => hok i hi) hbad

/-- Witness for C6 (amended): at n = 6144, c = 4096 with every wait
granted, exactly one token is acquired. -/
theorem claim_C6_witness :
    WaitForBytes (fun _ => WaitOutcome.ok) 6144 4096 = (1, none) ∧
    (tokensNeeded 6144 4096).toNat = max 1 (Int.tdiv 6144 4096).toNat := by
  have h := claim_C6 (fun _ => WaitOutcome.ok) 6144 4096 (by decide) (by decide)
  refine ⟨?_, h.1⟩
  have := h.2.1 (fun i _ => rfl)
  rw [this]
  decide

/-! ## C7: resource monitor with no caps (corrected) -/

/-- C7 refutation: with both caps zero (default target GC fraction
0.10) but a sampled GC CPU fraction of 0.5, `adjustResources` raises
the throttle level to 2 and, the level having changed from 0, invokes
the callback. -/
theorem claim_C7_counterexample :
    (adjustResources ⟨0, 0, (1 : Rat)/10⟩ ⟨0, (1 : Rat)/2, 0, 0, 0⟩ 4 0 true).newLevel = 2 ∧
    (adjustResources ⟨0, 0, (1 : Rat)/10⟩ ⟨0, (1 : Rat)/2, 0, 0, 0⟩ 4 0 true).callbackInvoked
      = true := by
  unfold adjustResources
  norm_num

/-- C7 (amended): with no memory cap and no load cap, the memory and
load rules can never fire; if additionally the sampled GC CPU fraction
is at most the target, the scheduler latency at most 10 ms and the
goroutine count at most 100·CPU, the evaluation leaves the throttle
level at 0 and does not invoke the callback.  (The GC, latency and
goroutine rules are not gated on the caps, so the original claim
("regardless of the sampled metrics") fails — see the counterexample.) -/
theorem claim_C7 : ∀ (cfg : MonitorConfig) (rm : ResourceMetrics)
    (numCPU oldLevel : Int) (onAdj : Bool),
    cfg.maxMemoryMB = 0 → cfg.maxLoadAvg = 0 → 0 ≤ cfg.targetGCPercent →
    rm.GCCPUFraction ≤ cfg.targetGCPercent →
    rm.SchedLatencyNS ≤ 10000000 →
    rm.NumGoroutines ≤ numCPU * 100 →
    oldLevel = 0 →
    (adjustResources cfg rm numCPU oldLevel onAdj).newLevel = 0 ∧
    (adjustResources cfg rm numCPU oldLevel onAdj).callbackInvoked = false := by
  intro cfg rm numCPU oldLevel onAdj hmem hload htgt hgc hsched hgo hold
  have h1 : ¬(0 < cfg.maxMemoryMB) := by omega
  have h2 : ¬(cfg.targetGCPercent * 2 < rm.GCCPUFraction) := by
    intro h
    have : cfg.targetGCPercent ≤ cfg.targetGCPercent * 2 := by linarith
    linarith
  have h3 : ¬(cfg.targetGCPercent < rm.GCCPUFraction) := not_lt.mpr hgc
  have h4 : ¬(0 < cfg.maxLoadAvg ∧ 0 < rm.LoadAvg1) := by
    rintro ⟨h, _⟩
    rw [hload] at h
    exact lt_irrefl 0 h
  have h5 : ¬((10000000 : Rat) < rm.SchedLatencyNS) := not_lt.mpr hsched
  have h6 : ¬(numCPU * 100 < rm.NumGoroutines) := not_lt.mpr hgo
  subst hold
  unfold adjustResources
  simp [h1, h2, h3, h4, h5, h6]

/-- Witness for C7 (amended): a concrete no-cap, low-pressure sample
leaves the level at 0 and does not call back. -/
theorem claim_C7_witness :
    (adjustResources ⟨0, 0, (1 : Rat)/10⟩ ⟨7, (1 : Rat)/20, 0, 5, 3⟩ 4 0 true).newLevel = 0 ∧
    (adjustResources ⟨0, 0, (1 : Rat)/10⟩ ⟨7, (1 : Rat)/20, 0, 5, 3⟩ 4 0 true).callbackInvoked
      = false :=
  claim_C7 ⟨0, 0, (1 : Rat)/10⟩ ⟨7, (1 : Rat)/20, 0, 5, 3⟩ 4 0 true rfl rfl
    (by norm_num) (by norm_num) (by norm_num) (by norm_num) rfl

/-! ## C5: circuit breaker temporal behaviour -/

theorem execute_closed_fail : ∀ (cb : CircuitBreaker) (t : Int),
    cb.state = .CircuitClosed →
    (cb.Execute t true).2 =
      (if cb.threshold ≤ cb.failures + 1 then
        { cb with state := .CircuitOpen, failures := 0, lastFailureTime := t }
      else { cb with failures := cb.failures + 1, lastFailureTime := t }) := by
  rintro ⟨st, f, s, lft, th, tmo, hom⟩ t h
  simp only [CircuitBreaker.state] at h
  subst h
  simp only [CircuitBreaker.Execute, CircuitBreaker.allowRequest,
    CircuitBreaker.recordResult]
  by_cases hth : th ≤ f + 1 <;> simp [hth]

theorem failRun_closed : ∀ (ts : List Int) (cb : CircuitBreaker),
    cb.state = .CircuitClosed →
    cb.failures + ts.length = cb.threshold → 0 ≤ cb.failures → ts ≠ [] →
    (failRun cb ts).state = .CircuitOpen ∧
    (failRun cb ts).failures = 0 ∧
    (failRun cb ts).lastFailureTime = ts.getLastD 0 ∧
    (failRun cb ts).threshold = cb.threshold ∧
    (failRun cb ts).timeout = cb.timeout ∧
    (failRun cb ts).halfOpenMax = cb.halfOpenMax ∧
    (failRun cb ts).successes = cb.successes := by
  intro ts
  induction ts with
  | nil => intro cb _ _ _ hne; exact absurd rfl hne
  | cons t rest ih =>
    intro cb hst hcnt hnn _
    cases rest with
    | nil =>
      have hth : cb.threshold ≤ cb.failures + 1 := by
        simp only [List.length_cons, List.length_nil] at hcnt; omega
      simp only [failRun, List.foldl, execute_closed_fail cb t hst, if_pos hth]
      simp [List.getLastD]
    | cons t2 rest2 =>
      have hlt : ¬(cb.threshold ≤ cb.failures + 1) := by
        simp only [List.length_cons] at hcnt
        push_cast at hcnt
        omega
      have hstep := execute_closed_fail cb t hst
      rw [if_neg hlt] at hstep
      have hlen : ({ cb with failures := cb.failures + 1, lastFailureTime := t} :
          CircuitBreaker).failures + ((t2 :: rest2 : List Int).length : Int) =
          ({ cb with failures := cb.failures + 1, lastFailureTime := t} :
          CircuitBreaker).threshold := by
        show cb.failures + 1 + ((t2 :: rest2 : List Int).length : Int) = cb.threshold
        simp only [List.length_cons] at hcnt ⊢
        push_cast at hcnt ⊢
        omega
      have happly := ih { cb with failures := cb.failures + 1, lastFailureTime := t }
        (by exact hst) hlen
        (by show (0 : Int) ≤ cb.failures + 1; omega) (by simp)
      simp only [failRun, List.foldl] at happly ⊢
      rw [hstep]
      refine ⟨happly.1, happly.2.1, ?_, happly.2.2.2.1, happly.2.2.2.2.1,
        happly.2.2.2.2.2.1, happly.2.2.2.2.2.2⟩
      rw [happly.2.2.1]
      simp [List.getLastD]

theorem execute_halfOpen_success : ∀ (cb : CircuitBreaker) (t : Int),
    cb.state = .CircuitHalfOpen →
    (cb.Execute t false).2 =
      (if cb.halfOpenMax ≤ cb.successes + 1 then
        { cb with state := .CircuitClosed, failures := 0, successes := 0 }
      else { cb with successes := cb.successes + 1 }) := by
  rintro ⟨st, f, s, lft, th, tmo, hom⟩ t h
  simp only [CircuitBreaker.state] at h
  subst h
  simp only [CircuitBreaker.Execute, CircuitBreaker.allowRequest,
    CircuitBreaker.recordResult]
  by_cases hth : hom ≤ s + 1 <;> simp [hth]

theorem succRun_halfOpen : ∀ (us : List Int) (cb : CircuitBreaker),
    cb.state = .CircuitHalfOpen →
    cb.successes + us.length = cb.halfOpenMax → 0 ≤ cb.successes → us ≠ [] →
    (succRun cb us).state = .CircuitClosed ∧
    (succRun cb us).failures = 0 ∧
    (succRun cb us).successes = 0 := by
  intro us
  induction us with
  | nil => intro cb _ _ _ hne; exact absurd rfl hne
  | cons u rest ih =>
    intro cb hst hcnt hnn _
    cases rest with
    | nil =>
      have hth : cb.halfOpenMax ≤ cb.successes + 1 := by
        simp only [List.length_cons, List.length_nil] at hcnt; omega
      simp only [succRun, List.foldl, execute_halfOpen_success cb u hst, if_pos hth]
      simp
    | cons u2 rest2 =>
      have hlt : ¬(cb.halfOpenMax ≤ cb.successes + 1) := by
        simp only [List.length_cons] at hcnt
        push_cast at hcnt
        omega
      have hstep := execute_halfOpen_success cb u hst
      rw [if_neg hlt] at hstep
      have hlen : ({ cb with successes := cb.successes + 1 } :
          CircuitBreaker).successes + ((u2 :: rest2 : List Int).length : Int) =
          ({ cb with successes := cb.successes + 1 } : CircuitBreaker).halfOpenMax := by
        show cb.successes + 1 + ((u2 :: rest2 : List Int).length : Int) = cb.halfOpenMax
        simp only [List.length_cons] at hcnt ⊢
        push_cast at hcnt ⊢
        omega
      have happly := ih { cb with successes := cb.successes + 1 }
        (by exact hst) hlen
        (by show (0 : Int) ≤ cb.successes + 1; omega) (by simp)
      simp only [succRun, List.foldl] at happly ⊢
      rw [hstep]
      exact happly

/-- C5: from the closed state with threshold T, cooldown D and
half-open success budget S (all positive): after T consecutive recorded
failures the breaker is open; every `Execute` before D has elapsed
since the last failure returns the circuit-open error without invoking
the callable and leaves the breaker unchanged; the first call at or
after D elapses does invoke the callable, transitioning through
half-open; and S consecutive successes starting with that call return
the breaker to closed with both counters reset. -/
theorem claim_C5 : ∀ (T D S : Int) (ts : List Int),
    0 < T → 0 < D → 0 < S → (ts.length : Int) = T →
    (failRun (NewCircuitBreaker T D S) ts).state = .CircuitOpen ∧
    (∀ (t : Int) (f : Bool), t - ts.getLastD 0 < D →
      (failRun (NewCircuitBreaker T D S) ts).Execute t f =
        (.circuitOpenErr, failRun (NewCircuitBreaker T D S) ts)) ∧
    (∀ (t : Int) (f : Bool), D ≤ t - ts.getLastD 0 →
      ((failRun (NewCircuitBreaker T D S) ts).Execute t f).1 = .ran f ∧
      ((failRun (NewCircuitBreaker T D S) ts).allowRequest t).2.state =
        .CircuitHalfOpen) ∧
    (∀ (t : Int) (us : List Int), D ≤ t - ts.getLastD 0 →
      (us.length : Int) = S - 1 →
      (succRun (failRun (NewCircuitBreaker T D S) ts) (t :: us)).state =
        .CircuitClosed ∧
      (succRun (failRun (NewCircuitBreaker T D S) ts) (t :: us)).failures = 0 ∧
      (succRun (failRun (NewCircuitBreaker T D S) ts) (t :: us)).successes = 0) := by
  intro T D S ts hT hD hS hlen
  have hcb0 : NewCircuitBreaker T D S =
      { state := .CircuitClosed, failures := 0, successes := 0, lastFailureTime := 0,
        threshold := T, timeout := D, halfOpenMax := S } := by
    unfold NewCircuitBreaker
    have h1 : ¬(T ≤ 0) := by omega
    have h2 : ¬(D ≤ 0) := by omega
    have h3 : ¬(S ≤ 0) := by omega
    simp [h1, h2, h3]
  have hne : ts ≠ [] := by
    intro h
    subst h
    simp at hlen
    omega
  have hrun := failRun_closed ts (NewCircuitBreaker T D S)
    (by rw [hcb0]) (by rw [hcb0]; simpa using hlen) (by rw [hcb0]) hne
  set cb1 := failRun (NewCircuitBreaker T D S) ts with hcb1
  rw [hcb0] at hrun
  simp only at hrun
  obtain ⟨hst, hfail, hlast, hth, htmo, hhom, hsuc⟩ := hrun
  refine ⟨hst, ?_, ?_, ?_⟩
  · intro t f hlt
    have hnot : ¬(cb1.timeout ≤ t - cb1.lastFailureTime) := by
      rw [htmo, hlast]
      omega
    unfold CircuitBreaker.Execute CircuitBreaker.allowRequest
    rw [hst]
    simp [hnot]
  · intro t f hge
    have hyes : cb1.timeout ≤ t - cb1.lastFailureTime := by
      rw [htmo, hlast]
      omega
    unfold CircuitBreaker.Execute CircuitBreaker.allowRequest
    rw [hst]
    simp [hyes]
  · intro t us hge huslen
    have hyes : cb1.timeout ≤ t - cb1.lastFailureTime := by
      rw [htmo, hlast]
      omega
    have hstep : (cb1.Execute t false).2 =
        CircuitBreaker.recordResult { cb1 with state := .CircuitHalfOpen, successes := 0 }
          false t := by
      unfold CircuitBreaker.Execute CircuitBreaker.allowRequest
      rw [hst]
      simp [hyes]
    by_cases hS1 : S = 1
    · -- a single success closes immediately
      have husnil : us = [] := by
        subst hS1
        cases us with
        | nil => rfl
        | cons a b => simp at huslen; omega
      subst husnil
      have hone := execute_halfOpen_success
        { cb1 with state := .CircuitHalfOpen, successes := 0 } t rfl
      have hmax : ({ cb1 with state := .CircuitHalfOpen, successes := 0 } :
          CircuitBreaker).halfOpenMax ≤
          ({ cb1 with state := .CircuitHalfOpen, successes := 0 } :
          CircuitBreaker).successes + 1 := by
        show cb1.halfOpenMax ≤ (0 : Int) + 1
        rw [hhom]
        omega
      rw [if_pos hmax] at hone
      simp only [succRun, List.foldl, hstep]
      have : CircuitBreaker.recordResult
          { cb1 with state := .CircuitHalfOpen, successes := 0 } false t =
          (({ cb1 with state := .CircuitHalfOpen, successes := 0 } :
            CircuitBreaker).Execute t false).2 := by
        unfold CircuitBreaker.Execute CircuitBreaker.allowRequest
        simp
      rw [this, hone]
      simp
    · -- S ≥ 2: the first success sets the counter to 1, the rest close
      have husne : us ≠ [] := by
        intro h
        subst h
        simp at huslen
        omega
      have hone := execute_halfOpen_success
        { cb1 with state := .CircuitHalfOpen, successes := 0 } t rfl
      have hmax : ¬(({ cb1 with state := .CircuitHalfOpen, successes := 0 } :
          CircuitBreaker).halfOpenMax ≤
          ({ cb1 with state := .CircuitHalfOpen, successes := 0 } :
          CircuitBreaker).successes + 1) := by
        show ¬(cb1.halfOpenMax ≤ (0 : Int) + 1)
        rw [hhom]
        omega
      rw [if_neg hmax] at hone
      have hrecord : CircuitBreaker.recordResult
          { cb1 with state := .CircuitHalfOpen, successes := 0 } false t =
          { cb1 with state := .CircuitHalfOpen, successes := (0 : Int) + 1 } := by
        have : CircuitBreaker.recordResult
            { cb1 with state := .CircuitHalfOpen, successes := 0 } false t =
            (({ cb1 with state := .CircuitHalfOpen, successes := 0 } :
              CircuitBreaker).Execute t false).2 := by
          unfold CircuitBreaker.Execute CircuitBreaker.allowRequest
          simp
        rw [this, hone]
      have happly := succRun_halfOpen us
        { cb1 with state := .CircuitHalfOpen, successes := (0 : Int) + 1 }
        rfl
        (by show (0 : Int) + 1 + (us.length : Int) = cb1.halfOpenMax
            rw [hhom]
            omega)
        (by show (0 : Int) ≤ (0 : Int) + 1; omega)
        husne
      simp only [succRun, List.foldl, hstep] at happly ⊢
      rw [hrecord]
      exact happly

/-- Witness for C5 at T = 2, D = 10, S = 2: failures at times 100 and
200 open the breaker; a call at 205 is short-circuited; a call at 210
runs; successes at 210 and 220 close the breaker again. -/
theorem claim_C5_witness :
    (failRun (NewCircuitBreaker 2 10 2) [100, 200]).state = CircuitState.CircuitOpen ∧
    ((failRun (NewCircuitBreaker 2 10 2) [100, 200]).Execute 205 true).1 =
      ExecOutcome.circuitOpenErr ∧
    ((failRun (NewCircuitBreaker 2 10 2) [100, 200]).Execute 210 false).1 =
      ExecOutcome.ran false ∧
    (succRun (failRun (NewCircuitBreaker 2 10 2) [100, 200]) [210, 220]).state =
      CircuitState.CircuitClosed := by
  have h := claim_C5 2 10 2 [100, 200] (by decide) (by decide) (by decide) (by decide)
  refine ⟨h.1, ?_, (h.2.2.1 210 false (by decide)).1, ?_⟩
  · rw [h.2.1 205 true (by decide)]
  · exact (h.2.2.2 210 [220] (by decide) (by decide)).1

/-! ## C4: content-hash deduplication in the read stage -/

theorem readStage_filter (h : List Char → String) (x : String) :
    ∀ (items : List ReadItem) (st : ReadState),
    (items.foldl (readStep h) st).forwarded.filter (fun it => h it.content == x) =
      st.forwarded.filter (fun it => h it.content == x) ++
      (if st.processedSet.contains x then []
       else (items.filter (fun it => h it.content == x)).take 1) := by
  intro items
  induction items with
  | nil =>
    intro st
    by_cases hc : st.processedSet.contains x <;> simp [hc]
  | cons it rest ih =>
    intro st
    simp only [List.foldl_cons]
    rw [ih]
    unfold readStep completeItem isDuplicate markProcessed
    by_cases hdup : h it.content ∈ st.processedSet
    · have hd : st.processedSet.contains (h it.content) = true := by
        exact List.elem_iff.mpr hdup
      simp only [hd, if_true]
      by_cases hx : h it.content = x
      · have hcx : x ∈ st.processedSet := hx ▸ hdup
        simp [hcx, hx]
      · have hfx : (h it.content == x) = false := by
          simp [hx]
        simp only [List.filter_cons, hfx]
        rfl
    · have hd : st.processedSet.contains (h it.content) = false := by
        simp only [List.elem_iff] at *
        simpa using hdup
      simp only [hd, if_false, Bool.false_eq_true]
      by_cases hx : h it.content = x
      · have hcx : ¬(x ∈ st.processedSet) := by
          rw [← hx]
          exact hdup
        have hfx : (h it.content == x) = true := by simp [hx]
        simp [hcx, hx, List.filter_append, List.filter_cons, hfx]
      · have hfx : (h it.content == x) = false := by simp [hx]
        have hxs : ¬(x = h it.content) := fun hh => hx hh.symm
        by_cases hc : x ∈ st.processedSet <;>
          simp [hc, hxs, List.filter_append, List.filter_cons, hfx]

theorem readStage_dup_fwd (h : List Char → String) :
    ∀ (items : List ReadItem) (st : ReadState),
    (items.foldl (readStep h) st).duplicatesSkipped +
      ((items.foldl (readStep h) st).forwarded.length : Int) =
    st.duplicatesSkipped + (st.forwarded.length : Int) + items.length := by
  intro items
  induction items with
  | nil => intro st; simp
  | cons it rest ih =>
    intro st
    simp only [List.foldl_cons, List.length_cons]
    rw [ih]
    unfold readStep completeItem isDuplicate markProcessed
    by_cases hdup : h it.content ∈ st.processedSet <;> simp [hdup] <;> omega

theorem readStage_buf_fwd (h : List Char → String) :
    ∀ (items : List ReadItem) (st : ReadState),
    (items.foldl (readStep h) st).buffersReturned +
      (items.foldl (readStep h) st).forwarded.length =
    st.buffersReturned + st.forwarded.length + items.length := by
  intro items
  induction items with
  | nil => intro st; simp
  | cons it rest ih =>
    intro st
    simp only [List.foldl_cons, List.length_cons]
    rw [ih]
    unfold readStep completeItem isDuplicate markProcessed
    by_cases hdup : h it.content ∈ st.processedSet <;>
      simp [hdup] <;> omega

/-- Serialized reference behavior: when check and mark are one atomic
step, among the files sharing a content hash only the first one
processed is forwarded past the read stage, and every later file with
an already-seen hash is dropped with its buffer returned and the
duplicates-skipped counter bumped.  This is the outcome the
specification describes; `claim_C4` below shows the worker pool does
not guarantee it. -/
theorem runReadStage_dedup : ∀ (h : List Char → String) (items : List ReadItem) (x : String),
    (runReadStage h items).forwarded.filter (fun it => h it.content == x) =
      (items.filter (fun it => h it.content == x)).take 1 ∧
    (runReadStage h items).duplicatesSkipped =
      (items.length : Int) - (runReadStage h items).forwarded.length ∧
    (runReadStage h items).buffersReturned +
      (runReadStage h items).forwarded.length = items.length ∧
    (runReadStage h items).duplicatesSkipped =
      ((runReadStage h items).buffersReturned : Int) := by
  intro h items x
  have h1 := readStage_filter h x items initialReadState
  have h2 := readStage_dup_fwd h items initialReadState
  have h3 := readStage_buf_fwd h items initialReadState
  unfold runReadStage
  simp only [initialReadState] at h1 h2 h3 ⊢
  norm_num at h2 h3
  refine ⟨by simpa using h1, by omega, by omega, by omega⟩

/-- Agreement of the two models: a pool with a single reader worker,
whose schedule necessarily serializes every check with its completion,
computes exactly the sequential read stage. -/
theorem runReadPool_single (h : List Char → String) :
    ∀ (items : List ReadItem) (st : ReadState),
    runReadPool h { shared := st, workers := [{ pending := items, checked := none }] }
        (List.replicate (2 * items.length) 0) =
      { shared := items.foldl (readStep h) st,
        workers := [{ pending := [], checked := none }] } := by
  intro items
  induction items with
  | nil => intro st; rfl
  | cons it rest ih =>
    intro st
    have hlen : 2 * (it :: rest).length = 2 * rest.length + 1 + 1 := by
      rw [List.length_cons]
      omega
    have hstep : runReadPool h
        { shared := st, workers := [{ pending := it :: rest, checked := none }] }
        (List.replicate (2 * rest.length + 1 + 1) 0) =
      runReadPool h
        { shared := readStep h st it,
          workers := [{ pending := rest, checked := none }] }
        (List.replicate (2 * rest.length) 0) := by
      rw [List.replicate_succ, List.replicate_succ]
      rfl
    rw [hlen, hstep, List.foldl_cons]
    exact ih (readStep h st it)

/-- C4: the claimed per-run deduplication invariant is not a property
of the program.  The read stage is a worker pool in which the
duplicate check (`isDuplicate`, read lock) and the mark
(`markProcessed`, separate write lock) are distinct critical sections;
in the interleaving where two workers holding byte-identical files
both run their checks before either marks, both files are forwarded
past the read stage and the duplicates-skipped counter stays 0.  The
serialized interleaving of the very same pool drops the second file
with its buffer returned and the counter at 1, so the outcome depends
on the schedule and the unconditional invariant fails. -/
theorem claim_C4 :
    ((runReadPool hashId racePool [0, 1, 0, 1]).shared.forwarded =
        [dupItemA, dupItemB] ∧
      (runReadPool hashId racePool [0, 1, 0, 1]).shared.duplicatesSkipped = 0) ∧
    ((runReadPool hashId racePool [0, 0, 1, 1]).shared.forwarded = [dupItemA] ∧
      (runReadPool hashId racePool [0, 0, 1, 1]).shared.duplicatesSkipped = 1 ∧
      (runReadPool hashId racePool [0, 0, 1, 1]).shared.buffersReturned = 1) := by
  decide

/-! ## C2: two-layer regex compilation strategy -/

/-- C2: for every pattern, `compilePattern` of the pipeline matcher
(delegating to `CompileRegex`) first runs the `isRE2Compatible`
pre-check and, only on success, attempts the linear-time (RE2)
compilation; it always also compiles with the PCRE-complete engine
(compilation succeeds exactly when PCRE accepts the pattern) and stores
the per-pattern timeout on the PCRE handle; and at match time the
linear-time engine is used exactly when it was compiled. -/
theorem claim_C2 : ∀ (re2Ok pcreOk : List Char → Bool) (pattern : List Char)
    (timeout : Int) (cr : CompiledRegex),
    Matcher.compilePattern re2Ok pcreOk timeout pattern = some cr →
    cr.useRE2 = (isRE2Compatible pattern && re2Ok pattern) ∧
    (isRE2Compatible pattern = false → cr.re2Compiled = false) ∧
    cr.pcreTimeout = timeout ∧
    pcreOk pattern = true ∧
    (∀ (re2Find pcreFind : List Char → Option (List Char × Nat)) (s : List Char),
      cr.useRE2 = true → cr.FindStringMatch re2Find pcreFind s = re2Find s) ∧
    (∀ (re2Find pcreFind : List Char → Option (List Char × Nat)) (s : List Char),
      cr.useRE2 = false → cr.FindStringMatch re2Find pcreFind s = pcreFind s) := by
  intro re2Ok pcreOk pattern timeout cr hc
  unfold Matcher.compilePattern CompileRegex at hc
  by_cases hp : pcreOk pattern
  · rw [if_pos hp] at hc
    have hcr := Option.some.inj hc
    subst hcr
    refine ⟨rfl, ?_, rfl, hp, ?_, ?_⟩
    · intro h
      simp [h]
    · intro re2Find pcreFind s h
      unfold CompiledRegex.FindStringMatch
      simp only at h ⊢
      simp [h]
    · intro re2Find pcreFind s h
      unfold CompiledRegex.FindStringMatch
      simp only at h ⊢
      simp [h]
  · rw [if_neg hp] at hc
    exact absurd hc (by simp)

/-- Witness for C2: the pattern `eval\s*\(` passes the pre-check, so
with both engine oracles accepting, the compiled handle prefers RE2 and
carries the 5-unit timeout. -/
theorem claim_C2_witness :
    isRE2Compatible "eval\\s*\\(".toList = true ∧
    ({ re2Compiled := true, useRE2 := true, pcreTimeout := 5,
       original := "eval\\s*\\(".toList } : CompiledRegex).useRE2 =
      (isRE2Compatible "eval\\s*\\(".toList && (fun _ => true) "eval\\s*\\(".toList) ∧
    ({ re2Compiled := true, useRE2 := true, pcreTimeout := 5,
       original := "eval\\s*\\(".toList } : CompiledRegex).pcreTimeout = 5 := by
  have h := claim_C2 (fun _ => true) (fun _ => true) "eval\\s*\\(".toList 5
    { re2Compiled := true, useRE2 := true, pcreTimeout := 5,
      original := "eval\\s*\\(".toList } (by decide)
  exact ⟨by decide, h.1, h.2.2.1⟩

/-! ## C1: common-string gating of signature evaluation -/

theorem bump_lookup (k tgt : Int) : ∀ (l : List (Int × Nat)),
    ((bump l k).lookup tgt).getD 0 =
      (l.lookup tgt).getD 0 + (if k = tgt then 1 else 0) := by
  intro l
  induction l with
  | nil =>
    by_cases h : k = tgt
    · subst h
      simp [bump, List.lookup]
    · have hbe : (tgt == k) = false := by
        simp only [beq_eq_false_iff_ne, ne_eq]
        exact fun hh => h hh.symm
      simp [bump, List.lookup, hbe, h]
  | cons p rest ih =>
    obtain ⟨k0, v⟩ := p
    by_cases hbt : tgt = k0
    · subst hbt
      by_cases h0 : tgt = k
      · subst h0
        simp [bump, List.lookup]
      · have h0s : ¬(k = tgt) := fun hh => h0 hh.symm
        simp [bump, List.lookup, h0, h0s]
    · have hbe : (tgt == k0) = false := by
        simp only [beq_eq_false_iff_ne, ne_eq]
        exact hbt
      by_cases h0 : k0 = k
      · subst h0
        simp [bump, List.lookup, hbe]
        have : ¬(k0 = tgt) := fun hh => hbt hh.symm
        simp [this]
      · simp [bump, List.lookup, h0, hbe, ih]

theorem bump_fst_sub (k : Int) : ∀ (l : List (Int × Nat)) (x : Int),
    x ∈ (bump l k).map Prod.fst → x ∈ l.map Prod.fst ∨ x = k := by
  intro l
  induction l with
  | nil => intro x hx; simp [bump] at hx; exact Or.inr hx
  | cons p rest ih =>
    obtain ⟨k0, v⟩ := p
    intro x hx
    by_cases h0 : k0 = k
    · subst h0
      simp [bump] at hx
      rcases hx with h | h
      · exact Or.inl (by simp [h])
      · exact Or.inl (by simp [h])
    · simp [bump, h0] at hx
      rcases hx with h | h
      · exact Or.inl (by simp [h])
      · rcases ih x (by simpa using h) with h2 | h2
        · exact Or.inl (by simp; exact Or.inr (by simpa using h2))
        · exact Or.inr h2

theorem bump_fst_nodup (k : Int) : ∀ (l : List (Int × Nat)),
    (l.map Prod.fst).Nodup → ((bump l k).map Prod.fst).Nodup := by
  intro l
  induction l with
  | nil => intro _; simp [bump]
  | cons p rest ih =>
    obtain ⟨k0, v⟩ := p
    intro hnd
    simp only [List.map_cons, List.nodup_cons] at hnd
    by_cases h0 : k0 = k
    · subst h0
      simp [bump, List.nodup_cons, hnd.1, hnd.2]
    · simp only [bump, h0, if_false, List.map_cons, List.nodup_cons]
      refine ⟨?_, ih hnd.2⟩
      intro hmem
      rcases bump_fst_sub k rest k0 hmem with h | h
      · exact hnd.1 h
      · exact h0 h

theorem lookup_eq_of_mem_of_nodup {β : Type} : ∀ (l : List (Int × β)) (p : Int × β),
    (l.map Prod.fst).Nodup → p ∈ l → l.lookup p.1 = some p.2 := by
  intro l
  induction l with
  | nil => intro p _ hp; simp at hp
  | cons q rest ih =>
    intro p hnd hp
    obtain ⟨k0, v0⟩ := q
    simp only [List.map_cons, List.nodup_cons] at hnd
    rcases List.mem_cons.mp hp with h | h
    · subst h
      simp [List.lookup]
    · have hne : k0 ≠ p.1 := by
        intro hh
        exact hnd.1 (hh ▸ List.mem_map_of_mem Prod.fst h)
      have hbe : (p.1 == k0) = false := by
        simp only [beq_eq_false_iff_ne, ne_eq]
        exact fun hh => hne hh.symm
      simp only [List.lookup, hbe]
      exact ih p hnd.2 h

theorem sigs_lookup_map (sigOk : Int → Bool) : ∀ (l : List (Int × Signature)) (k : Int),
    (l.map (fun p =>
      (p.1,
       { Signature := p.2, hasPattern := sigOk p.1,
         AnchoredStart := leadsWith ['^'] p.2.Rule : CompiledSignature }))).lookup k =
      (l.lookup k).map (fun v =>
       { Signature := v, hasPattern := sigOk k,
         AnchoredStart := leadsWith ['^'] v.Rule : CompiledSignature }) := by
  intro l
  induction l with
  | nil => intro k; simp [List.lookup]
  | cons p rest ih =>
    intro k
    obtain ⟨a, b⟩ := p
    by_cases h : a = k
    · subst h
      simp [List.lookup]
    · have hbe : (k == a) = false := by
        simp only [beq_eq_false_iff_ne, ne_eq]
        exact fun hh => h hh.symm
      simp [List.lookup, hbe, ih]

theorem addContribs_nil (tgt : Int) : ∀ (ids : List Int) (counts : List (Int × Nat)),
    ((addContribs [] counts ids).lookup tgt).getD 0 =
      (counts.lookup tgt).getD 0 + ids.count tgt := by
  intro ids
  induction ids with
  | nil => intro counts; simp [addContribs]
  | cons i rest ih =>
    intro counts
    simp only [addContribs, List.foldl_cons, List.lookup, Option.isSome_none,
      Bool.false_eq_true, if_false] at *
    rw [ih (bump counts i), bump_lookup]
    by_cases h : i = tgt
    · subst h
      simp [List.count_cons]
      omega
    · have hs : ¬(tgt = i) := fun hh => h hh.symm
      simp [List.count_cons, h, hs]

theorem addContribs_nil_nodup (ids : List Int) : ∀ (counts : List (Int × Nat)),
    (counts.map Prod.fst).Nodup → ((addContribs [] counts ids).map Prod.fst).Nodup := by
  induction ids with
  | nil => intro counts h; simpa [addContribs] using h
  | cons i rest ih =>
    intro counts h
    simp only [addContribs, List.foldl_cons, List.lookup, Option.isSome_none,
      Bool.false_eq_true, if_false] at *
    exact ih (bump counts i) (bump_fst_nodup i counts h)

theorem getD_set_ne : ∀ (l : List Bool) (i j : Nat) (b d : Bool), i ≠ j →
    (l.set i b).getD j d = l.getD j d := by
  intro l
  induction l with
  | nil => intro i j b d _; simp
  | cons c rest ih =>
    intro i j b d hij
    cases i with
    | zero =>
      cases j with
      | zero => exact absurd rfl hij
      | succ j2 => simp [List.set]
    | succ i2 =>
      cases j with
      | zero => simp [List.set]
      | succ j2 =>
        simp only [List.set, List.getD_cons_succ]
        exact ih i2 j2 b d (fun hh => hij (by omega))

theorem getD_replicate_false : ∀ (n i : Nat),
    (List.replicate n false).getD i false = false := by
  intro n
  induction n with
  | zero => intro i; simp
  | succ m ih =>
    intro i
    cases i with
    | zero => simp [List.replicate]
    | succ i2 => simp [List.replicate, ih i2]

theorem checkLoop_spec (csOk : Nat → Bool) (content : List Char) (tgt : Int) :
    ∀ (pairs : List (Nat × CommonString)) (mc : MatchContext)
      (counts : List (Int × Nat)),
    mc.matchMap = [] →
    (∀ q ∈ pairs, mc.commonStringStates.getD q.1 false = false) →
    (pairs.map Prod.fst).Nodup →
    (checkCommonStringsLoop csOk content mc counts pairs).1.matchMap = [] ∧
    ((checkCommonStringsLoop csOk content mc counts pairs).2.lookup tgt).getD 0 =
      (counts.lookup tgt).getD 0 +
      (pairs.map (fun q =>
        if csOk q.1 && strContains q.2.str content then
          q.2.SignatureIDs.count tgt
        else 0)).sum ∧
    ((counts.map Prod.fst).Nodup →
      ((checkCommonStringsLoop csOk content mc counts pairs).2.map Prod.fst).Nodup) := by
  intro pairs
  induction pairs with
  | nil =>
    intro mc counts hmm _ _
    exact ⟨hmm, by simp [checkCommonStringsLoop], fun h => h⟩
  | cons q rest ih =>
    intro mc counts hmm hstates hnd
    obtain ⟨idx, cs⟩ := q
    have hst0 : mc.commonStringStates.getD idx false = false :=
      hstates (idx, cs) (List.mem_cons_self _ _)
    simp only [List.map_cons, List.nodup_cons] at hnd
    have hstep : csStep csOk content mc counts idx cs =
        (if csOk idx then
          (if strContains cs.str content then
            ({ mc with commonStringStates := mc.commonStringStates.set idx true },
             addContribs mc.matchMap counts cs.SignatureIDs)
          else (mc, counts))
        else (mc, counts)) := by
      unfold csStep
      rw [hst0]
      by_cases hok : csOk idx
      · simp [hok]
      · simp [hok]
    by_cases hok : csOk idx
    · by_cases hcont : strContains cs.str content
      · -- observed: mark the state and contribute
        rw [if_pos hok, if_pos hcont] at hstep
        have hstates2 : ∀ p ∈ rest,
            ({ mc with commonStringStates := mc.commonStringStates.set idx true } :
              MatchContext).commonStringStates.getD p.1 false = false := by
          intro p hp
          have hne : idx ≠ p.1 := by
            intro hh
            exact hnd.1 (hh ▸ List.mem_map_of_mem Prod.fst hp)
          show (mc.commonStringStates.set idx true).getD p.1 false = false
          rw [getD_set_ne _ _ _ _ _ hne]
          exact hstates p (List.mem_cons_of_mem _ hp)
        have hM := ih { mc with commonStringStates := mc.commonStringStates.set idx true }
          (addContribs mc.matchMap counts cs.SignatureIDs)
          (by exact hmm) hstates2 hnd.2
        simp only [checkCommonStringsLoop, hstep]
        refine ⟨hM.1, ?_, ?_⟩
        · rw [hM.2.1, hmm, addContribs_nil]
          simp [hok, hcont]
          omega
        · intro hcnd
          refine hM.2.2 ?_
          rw [hmm]
          exact addContribs_nil_nodup cs.SignatureIDs counts hcnd
      · rw [if_pos hok, if_neg hcont] at hstep
        have hM := ih mc counts hmm
          (fun p hp => hstates p (List.mem_cons_of_mem _ hp)) hnd.2
        simp only [checkCommonStringsLoop, hstep]
        refine ⟨hM.1, ?_, hM.2.2⟩
        rw [hM.2.1]
        simp [hok, hcont]
    · rw [if_neg hok] at hstep
      have hM := ih mc counts hmm
        (fun p hp => hstates p (List.mem_cons_of_mem _ hp)) hnd.2
      simp only [checkCommonStringsLoop, hstep]
      refine ⟨hM.1, ?_, hM.2.2⟩
      rw [hM.2.1]
      simp [hok]

theorem enumFrom_map_sum (f : Nat × CommonString → Nat) (dflt : CommonString) :
    ∀ (css : List CommonString) (n : Nat),
    ((css.enumFrom n).map f).sum =
      ∑ i ∈ Finset.range css.length, f (n + i, css.getD i dflt) := by
  intro css
  induction css with
  | nil => intro n; simp
  | cons c rest ih =>
    intro n
    rw [List.enumFrom_cons, List.map_cons, List.sum_cons, ih (n + 1),
      List.length_cons, Finset.sum_range_succ']
    simp only [List.getD_cons_succ, List.getD_cons_zero, Nat.add_zero]
    rw [Nat.add_comm]
    congr 1
    refine Finset.sum_congr rfl (fun i _ => ?_)
    have harg : n + 1 + i = n + (i + 1) := by omega
    rw [harg]

theorem gated_count_bound (css : List CommonString) (scs : List Nat)
    (activeB : Nat → Bool) (idx0 : Nat) :
    scs.Nodup → (∀ k ∈ scs, k < css.length) →
    idx0 ∈ scs → activeB idx0 = false →
    (∑ i ∈ Finset.range css.length,
      (if i ∈ scs ∧ activeB i = true then 1 else 0)) < scs.length := by
  intro hnd hsub hmem hinactive
  have hlt : ∑ i ∈ Finset.range css.length,
      (if i ∈ scs ∧ activeB i = true then 1 else 0) <
      ∑ i ∈ Finset.range css.length, (if i ∈ scs then 1 else 0) := by
    refine Finset.sum_lt_sum (fun i _ => ?_) ⟨idx0, Finset.mem_range.mpr (hsub idx0 hmem), ?_⟩
    · by_cases h1 : i ∈ scs ∧ activeB i = true
      · simp [h1, h1.1]
      · by_cases h2 : i ∈ scs
        · simp only [h2, true_and, if_true]
          by_cases h3 : activeB i = true <;> simp [h3]
        · simp [h1, h2]
    · simp [hmem, hinactive]
  have heq : ∑ i ∈ Finset.range css.length, (if i ∈ scs then 1 else 0) = scs.length := by
    rw [Finset.sum_boole]
    have hfe : (Finset.range css.length).filter (fun i => i ∈ scs) = scs.toFinset := by
      ext i
      simp only [Finset.mem_filter, Finset.mem_range, List.mem_toFinset]
      exact ⟨fun h => h.2, fun h => ⟨hsub i h, h⟩⟩
    rw [hfe]
    simp [List.toFinset_card_of_nodup hnd]
  omega

theorem matchSignature_lookup (rmatch : Int → List Char → RegexOutcome)
    (mc : MatchContext) (sig : CompiledSignature) (content : List Char)
    (isStart : Bool) (tgt : Int) :
    sig.Signature.ID ≠ tgt → mc.matchMap.lookup tgt = none →
    ((matchSignature rmatch mc sig content isStart).2.matchMap.lookup tgt = none) := by
  intro hne hnone
  unfold matchSignature
  by_cases h1 : !sig.hasPattern
  · simp [h1, hnone]
  · by_cases h2 : sig.AnchoredStart && !isStart
    · simp [h1, h2, hnone]
    · by_cases h3 : (mc.matchMap.lookup sig.Signature.ID).isSome
      · simp [h1, h2, h3, hnone]
      · have hbe : (tgt == sig.Signature.ID) = false := by
          simp only [beq_eq_false_iff_ne, ne_eq]
          exact fun hh => hne hh.symm
        cases hr : rmatch sig.Signature.ID content <;>
          simp [h1, h2, h3, hr, List.lookup, hbe, hnone]

theorem runSigs_lookup_none (rmatch : Int → List Char → RegexOutcome)
    (matchAll : Bool) (content : List Char) (isStart : Bool) (tgt : Int) :
    ∀ (sigs : List CompiledSignature) (mc : MatchContext),
    (∀ g ∈ sigs, g.Signature.ID ≠ tgt) → mc.matchMap.lookup tgt = none →
    ((runSigs rmatch matchAll mc content isStart sigs).2.matchMap.lookup tgt = none) := by
  intro sigs
  induction sigs with
  | nil => intro mc _ h; exact h
  | cons sig rest ih =>
    intro mc hall hnone
    have hstep := matchSignature_lookup rmatch mc sig content isStart tgt
      (hall sig (List.mem_cons_self _ _)) hnone
    unfold runSigs
    by_cases hhit : (matchSignature rmatch mc sig content isStart).1 && !matchAll
    · simp [hhit, hstep]
    · simp only [hhit, if_false, Bool.false_eq_true]
      exact ih (matchSignature rmatch mc sig content isStart).2
        (fun g hg => hall g (List.mem_cons_of_mem _ hg)) hstep

theorem noCommonStrSigs_mem (ss : SignatureSet) (sigOk : Int → Bool) (matchAll : Bool) :
    ∀ g ∈ (NewMatcher ss sigOk matchAll).noCommonStrSigs,
    ∃ p ∈ ss.Signatures, g.Signature = p.2 ∧ p.2.CommonStrings = [] := by
  intro g hg
  unfold NewMatcher at hg
  simp only [List.mem_filterMap, List.mem_map] at hg
  obtain ⟨q, ⟨p, hp, hq⟩, hcond⟩ := hg
  subst hq
  split at hcond
  · rename_i hcs
    have hgq := Option.some.inj hcond
    have hempty : p.2.CommonStrings = [] := by
      simp only [Bool.and_eq_true, Bool.not_eq_eq_eq_not, Bool.not_true] at hcs
      have h1 := hcs.1
      unfold Signature.HasCommonStrings at h1
      simp at h1
      exact h1
    exact ⟨p, hp, by rw [← hgq], hempty⟩
  · exact absurd hcond (by simp)

theorem lookup_mem {β : Type} : ∀ (l : List (Int × β)) (a : Int) (v : β),
    l.lookup a = some v → (a, v) ∈ l := by
  intro l
  induction l with
  | nil => intro a v h; simp [List.lookup] at h
  | cons p rest ih =>
    intro a v h
    obtain ⟨k0, v0⟩ := p
    by_cases hk : a = k0
    · subst hk
      simp only [List.lookup, beq_self_eq_true] at h
      have := Option.some.inj h
      subst this
      exact List.mem_cons_self _ _
    · have hbe : (a == k0) = false := by
        simp only [beq_eq_false_iff_ne, ne_eq]
        exact hk
      simp only [List.lookup, hbe] at h
      exact List.mem_cons_of_mem _ (ih a v h)

/-- C1: for every signature set satisfying the data-model invariant,
every signature `s` with a non-empty common-string list, and every
content: if some common string of `s` does not occur literally in the
content, then the per-file match protocol (`Match` on a fresh context,
i.e. `MatchChunk` with `isStart = true`) records no match for `s` —
whatever the signature regex oracle, the common-string compile results
and the `matchAll` flag. -/
theorem claim_C1 : ∀ (ss : SignatureSet) (sigOk : Int → Bool) (matchAll : Bool)
    (rmatch : Int → List Char → RegexOutcome) (csOk : Nat → Bool)
    (s : Signature) (content : List Char) (idx0 : Nat),
    DataModelInv ss →
    (s.ID, s) ∈ ss.Signatures →
    s.CommonStrings ≠ [] →
    idx0 ∈ s.CommonStrings →
    strContains (ss.CommonStrings.getD idx0 ⟨[], []⟩).str content = false →
    ((MatcherMatch (NewMatcher ss sigOk matchAll) rmatch csOk content).matchMap.lookup
      s.ID) = none := by
  intro ss sigOk matchAll rmatch csOk s content idx0 hinv hmem hne hidx0 hnocc
  obtain ⟨inv1, inv2, inv3, inv4, inv5, inv6⟩ := hinv
  set m := NewMatcher ss sigOk matchAll with hm
  have hmcs : m.commonStrings = ss.CommonStrings := rfl
  have hmsigs : m.signatures = ss.Signatures.map (fun p =>
      (p.1, ({ Signature := p.2, hasPattern := sigOk p.1,
               AnchoredStart := leadsWith ['^'] p.2.Rule } : CompiledSignature))) := rfl
  -- the fresh context
  have hmc0 : m.NewMatchContext =
      { matchMap := [], timeouts := [],
        commonStringStates := List.replicate ss.CommonStrings.length false } := rfl
  -- run the prefilter loop specification
  have hstates0 : ∀ q ∈ ss.CommonStrings.enum,
      (m.NewMatchContext).commonStringStates.getD q.1 false = false := by
    intro q _
    rw [hmc0]
    exact getD_replicate_false _ _
  have hndenum : ((ss.CommonStrings.enum).map Prod.fst).Nodup := by
    rw [List.enum_map_fst]
    exact List.nodup_range _
  have hloop := checkLoop_spec csOk content s.ID ss.CommonStrings.enum
    m.NewMatchContext [] (by rw [hmc0]) hstates0 hndenum
  set loopRes := checkCommonStringsLoop csOk content m.NewMatchContext []
    ss.CommonStrings.enum with hloopRes
  obtain ⟨hloopMM, hloopVal, hloopND⟩ := hloop
  have hndcounts : (loopRes.2.map Prod.fst).Nodup := hloopND (by simp)
  -- the counted value for s.ID is strictly below the gate
  have hval : (loopRes.2.lookup s.ID).getD 0 < s.CommonStrings.length := by
    rw [hloopVal]
    simp only [List.lookup, Option.getD_none, Nat.zero_add]
    have hsum : ((ss.CommonStrings.enum).map (fun q =>
        if csOk q.1 && strContains q.2.str content then
          q.2.SignatureIDs.count s.ID
        else 0)).sum =
        ∑ i ∈ Finset.range ss.CommonStrings.length,
          (if i ∈ s.CommonStrings ∧
              (csOk i && strContains (ss.CommonStrings.getD i ⟨[], []⟩).str content)
                = true then 1 else 0) := by
      have henum : ss.CommonStrings.enum = ss.CommonStrings.enumFrom 0 := rfl
      rw [henum, enumFrom_map_sum _ ⟨[], []⟩ ss.CommonStrings 0]
      refine Finset.sum_congr rfl (fun i hi => ?_)
      have hilen : i < ss.CommonStrings.length := Finset.mem_range.mp hi
      have hcsmem : ss.CommonStrings.getD i ⟨[], []⟩ ∈ ss.CommonStrings := by
        rw [List.getD_eq_getElem _ _ hilen]
        exact List.getElem_mem hilen
      have hcount : (ss.CommonStrings.getD i ⟨[], []⟩).SignatureIDs.count s.ID =
          if i ∈ s.CommonStrings then 1 else 0 := by
        by_cases hmem2 : i ∈ s.CommonStrings
        · rw [if_pos hmem2]
          exact List.count_eq_one_of_mem (inv5 _ hcsmem)
            (((inv6 (s.ID, s) hmem i hilen).mp hmem2))
        · rw [if_neg hmem2]
          refine List.count_eq_zero.mpr ?_
          intro hin
          exact hmem2 ((inv6 (s.ID, s) hmem i hilen).mpr hin)
      simp only [Nat.zero_add, hcount]
      by_cases hact : (csOk i &&
          strContains (ss.CommonStrings.getD i ⟨[], []⟩).str content) = true
      · by_cases hmem2 : i ∈ s.CommonStrings <;> simp [hact, hmem2]
      · by_cases hmem2 : i ∈ s.CommonStrings <;> simp [hact, hmem2]
    rw [hsum]
    refine gated_count_bound ss.CommonStrings s.CommonStrings
      (fun i => csOk i && strContains (ss.CommonStrings.getD i ⟨[], []⟩).str content)
      idx0 (inv4 (s.ID, s) hmem) (fun k hk => inv3 (s.ID, s) hmem k hk) hidx0 ?_
    show (csOk idx0 &&
      strContains (ss.CommonStrings.getD idx0 ⟨[], []⟩).str content) = false
    rw [hnocc, Bool.and_false]
  -- no possible signature carries the ID of s
  have hposs : ∀ g ∈ possibleSigs m loopRes.2, g.Signature.ID ≠ s.ID := by
    intro g hg hgid
    unfold possibleSigs at hg
    simp only [List.mem_filterMap] at hg
    obtain ⟨q, hq, hcond⟩ := hg
    cases hlk : m.signatures.lookup q.1 with
    | none => rw [hlk] at hcond; simp at hcond
    | some sigv =>
      rw [hlk] at hcond
      have hcond2 : (if q.2 = sigv.Signature.GetCommonStringCount then some sigv
          else none) = some g := hcond
      by_cases hcnt : q.2 = sigv.Signature.GetCommonStringCount
      · rw [if_pos hcnt] at hcond2
        have hgv := Option.some.inj hcond2
        subst hgv
        -- the looked-up compiled signature has the key as its ID
        rw [hmsigs, sigs_lookup_map sigOk ss.Signatures q.1] at hlk
        cases hlks : ss.Signatures.lookup q.1 with
        | none => rw [hlks] at hlk; simp at hlk
        | some origv =>
          rw [hlks] at hlk
          have hgdef := Option.some.inj hlk
          have hkey : q.1 = origv.ID := inv1 (q.1, origv) (lookup_mem _ _ _ hlks)
          have hgsig : sigv.Signature = origv := by rw [← hgdef]
          have hq1 : q.1 = s.ID := by
            rw [hkey, ← hgsig]
            exact hgid
          -- then the original signature is s itself
          have hlkS : ss.Signatures.lookup s.ID = some s :=
            lookup_eq_of_mem_of_nodup ss.Signatures (s.ID, s) inv2 hmem
          have horig : origv = s := by
            rw [hq1] at hlks
            exact Option.some.inj (hlks.symm.trans hlkS)
          -- but its count is below the gate
          have hqval : loopRes.2.lookup q.1 = some q.2 :=
            lookup_eq_of_mem_of_nodup loopRes.2 q hndcounts hq
          rw [hq1] at hqval
          have hbound : q.2 < s.CommonStrings.length := by
            have hv := hval
            rw [hqval] at hv
            simpa using hv
          rw [hcnt, hgsig, horig] at hbound
          exact absurd hbound (by simp [Signature.GetCommonStringCount])
      · rw [if_neg hcnt] at hcond2
        simp at hcond2
  -- no common-string-free signature carries the ID of s
  have hnocs : ∀ g ∈ m.noCommonStrSigs, g.Signature.ID ≠ s.ID := by
    intro g hg hgid
    obtain ⟨p, hp, hgsig, hempty⟩ := noCommonStrSigs_mem ss sigOk matchAll g hg
    have hkey : p.1 = p.2.ID := inv1 p hp
    have hp1 : p.1 = s.ID := by rw [hkey, ← hgsig, hgid]
    have hlkS : ss.Signatures.lookup s.ID = some s :=
      lookup_eq_of_mem_of_nodup ss.Signatures (s.ID, s) inv2 hmem
    have hlkP : ss.Signatures.lookup p.1 = some p.2 :=
      lookup_eq_of_mem_of_nodup ss.Signatures p inv2 hp
    rw [hp1] at hlkP
    have : p.2 = s := Option.some.inj (hlkP.symm.trans hlkS)
    rw [this] at hempty
    exact hne hempty
  -- assemble the chunk run
  unfold MatcherMatch MatchChunk checkCommonStrings
  rw [← hmcs] at hloopRes
  rw [← hloopRes]
  have hr1mm : (runSigs rmatch m.matchAll loopRes.1 content true
      m.noCommonStrSigs).2.matchMap.lookup s.ID = none := by
    refine runSigs_lookup_none rmatch m.matchAll content true s.ID
      m.noCommonStrSigs loopRes.1 ?_ ?_
    · intro g hg
      exact hnocs g hg
    · rw [hloopMM]
      simp [List.lookup]
  by_cases hstop : (runSigs rmatch m.matchAll loopRes.1 content true
      m.noCommonStrSigs).1
  · simp only [hstop, if_true]
    exact hr1mm
  · simp only [hstop, if_false, Bool.false_eq_true]
    refine runSigs_lookup_none rmatch m.matchAll content true s.ID
      (possibleSigs m loopRes.2) _ ?_ hr1mm
    intro g hg
    exact hposs g hg

/-- Witness for C1: a signature gated on both `eval` and `b64`, content
containing only `eval`, and an oracle that matches everything — still
no match is recorded for the gated signature. -/
theorem claim_C1_witness :
    ((MatcherMatch
        (NewMatcher
          { CommonStrings := [⟨"eval".toList, [1]⟩, ⟨"b64".toList, [1]⟩],
            Signatures := [(1, ⟨1, "r".toList, [0, 1]⟩)] }
          (fun _ => true) false)
        (fun _ _ => RegexOutcome.found ['x'] 0) (fun _ => true)
        "eval only".toList).matchMap.lookup 1) = none :=
  claim_C1
    { CommonStrings := [⟨"eval".toList, [1]⟩, ⟨"b64".toList, [1]⟩],
      Signatures := [(1, ⟨1, "r".toList, [0, 1]⟩)] }
    (fun _ => true) false (fun _ _ => RegexOutcome.found ['x'] 0) (fun _ => true)
    ⟨1, "r".toList, [0, 1]⟩ "eval only".toList 1
    (by refine ⟨?_, ?_, ?_, ?_, ?_, ?_⟩ <;> decide)
    (by decide) (by decide) (by decide) (by decide)
